import Mathlib

set_option maxRecDepth 8192

/-!
Verification of the obsidion-bridge secure messaging core.

This file gives a shallow embedding, in Lean 4, of the parts of the
TypeScript sources that carry the session state machine and the secure
messaging pipeline:

* `src/encryption.ts` — AES-256-GCM wrapper with a deterministic nonce
  derived from the bridge id (`sha256Truncate`, `encrypt`, `decrypt`);
* `src/json-rpc.ts` — outbound chunking pipeline
  (`getEncryptedJsonPayload`, `CHUNK_SIZE`);
* `src/bridge-connection.ts` — inbound dispatch (`handleWebSocketMessage`),
  the creator handshake (`handleHandshake`), chunk reassembly
  (`handleEncryptedMessage`), reconnection (`handleReconnect`), the event
  emitter (`emit`);
* `src/utils.ts` — `parseOriginHeader`.

Conventions of the embedding:

* Byte strings are `List Nat` (each element intended `< 256`); JavaScript
  strings that are only moved around (base64 blobs, chunk slices) are also
  `List Nat` of character codes, while strings that are inspected
  character by character (origins) are `List Char`, and API-level strings
  are `String`.
* External libraries called by the sources (the block cipher inside
  `@noble/ciphers`' AES-GCM, `pako`'s deflate/inflate, `Buffer` base64,
  `JSON.stringify`/`JSON.parse`, secp256k1 ECDH) are parameters of the
  embedding, collected in `Codecs`; the GCM mode itself (counter-mode
  XOR stream plus a recomputed GHASH tag), SHA-256, and UTF-8 are
  implemented concretely.
* Stateful methods of `BridgeConnection` become functions from an explicit
  `SessionSt` state to a new state plus the list of emitted events and the
  list of frames written to the websocket.
* JavaScript `Uint8Array` equality (`!==`) compares object references, so
  `remotePublicKey` is stored together with an allocation tag (`Nat`), and
  parsing a key allocates a fresh tag from the `nextRef` counter.
-/

namespace Obsidion

/-! ## Byte-level helpers -/

/-- Ceiling division, `Math.ceil (a / b)` on naturals. -/
def ceilDiv (a b : Nat) : Nat := (a + b - 1) / b

/-- Big-endian bytes of `n`, `k` bytes wide (truncating above `2^(8k)`). -/
def natToBytesBE (k n : Nat) : List Nat :=
  (List.range k).map (fun i => n >>> (8 * (k - 1 - i)) % 256)

/-- Big-endian number denoted by a byte string. -/
def bytesToNatBE (l : List Nat) : Nat :=
  l.foldl (fun acc b => acc * 256 + b) 0

/-! ## UTF-8 (`TextEncoder` / `TextDecoder`)

The sources convert between JavaScript strings and byte arrays with
`utf8ToBytes` and `TextDecoder`.  We implement standard UTF-8 on the
code points of a Lean `String`. -/

/-- UTF-8 encoding of one code point. -/
def utf8EncodeChar (c : Char) : List Nat :=
  let n := c.toNat
  if n < 128 then [n]
  else if n < 2048 then [192 + n / 64, 128 + n % 64]
  else if n < 65536 then [224 + n / 4096, 128 + n / 64 % 64, 128 + n % 64]
  else [240 + n / 262144, 128 + n / 4096 % 64, 128 + n / 64 % 64, 128 + n % 64]

/-- UTF-8 encoding of a character list. -/
def charsToBytes (cs : List Char) : List Nat :=
  (cs.map utf8EncodeChar).flatten

/-- `TextEncoder`: UTF-8 bytes of a string. -/
def strToBytes (s : String) : List Nat := charsToBytes s.data

/-- UTF-8 decoding; malformed input decodes to U+FFFD. -/
def utf8Decode : List Nat → List Char
  | [] => []
  | b :: bs =>
    if b < 128 then Char.ofNat b :: utf8Decode bs
    else if b < 192 then Char.ofNat 65533 :: utf8Decode bs
    else
      match bs with
      | [] => [Char.ofNat 65533]
      | b1 :: bs1 =>
        if b < 224 then Char.ofNat ((b - 192) * 64 + (b1 - 128)) :: utf8Decode bs1
        else
          match bs1 with
          | [] => [Char.ofNat 65533]
          | b2 :: bs2 =>
            if b < 240 then
              Char.ofNat ((b - 224) * 4096 + (b1 - 128) * 64 + (b2 - 128)) :: utf8Decode bs2
            else
              match bs2 with
              | [] => [Char.ofNat 65533]
              | b3 :: bs3 =>
                Char.ofNat
                    ((b - 240) * 262144 + (b1 - 128) * 4096 + (b2 - 128) * 64 + (b3 - 128)) ::
                  utf8Decode bs3

/-- `TextDecoder`: string denoted by UTF-8 bytes. -/
def bytesToStr (l : List Nat) : String := ⟨utf8Decode l⟩

/-! ## SHA-256 (`@noble/hashes/sha2`)

The bridge uses SHA-256 of the UTF-8 bridge id, truncated to 12 bytes, as
the AES-GCM nonce.  The full FIPS 180-4 compression function is given
here over `List Nat` bytes. -/

/-- Truncate to a 32-bit word. -/
def w32 (x : Nat) : Nat := x % 4294967296

/-- 32-bit right rotation (argument assumed `< 2^32`). -/
def rotr32 (x n : Nat) : Nat := w32 ((x >>> n) ||| (x <<< (32 - n)))

/-- Bitwise complement on 32 bits. -/
def not32 (x : Nat) : Nat := x ^^^ 4294967295

/-- SHA-256 round constants. -/
def shaK : List Nat :=
  [1116352408, 1899447441, 3049323471, 3921009573,
   961987163, 1508970993, 2453635748, 2870763221,
   3624381080, 310598401, 607225278, 1426881987,
   1925078388, 2162078206, 2614888103, 3248222580,
   3835390401, 4022224774, 264347078, 604807628,
   770255983, 1249150122, 1555081692, 1996064986,
   2554220882, 2821834349, 2952996808, 3210313671,
   3336571891, 3584528711, 113926993, 338241895,
   666307205, 773529912, 1294757372, 1396182291,
   1695183700, 1986661051, 2177026350, 2456956037,
   2730485921, 2820302411, 3259730800, 3345764771,
   3516065817, 3600352804, 4094571909, 275423344,
   430227734, 506948616, 659060556, 883997877,
   958139571, 1322822218, 1537002063, 1747873779,
   1955562222, 2024104815, 2227730452, 2361852424,
   2428436474, 2756734187, 3204031479, 3329325298]

/-- One step of the message-schedule extension: append `W[i]` for the
current length `i ∈ [16, 64)`. -/
def shaExtendStep (w : List Nat) : List Nat :=
  let i := w.length
  let x15 := w.getD (i - 15) 0
  let x2 := w.getD (i - 2) 0
  let s0 := (rotr32 x15 7) ^^^ (rotr32 x15 18) ^^^ (x15 >>> 3)
  let s1 := (rotr32 x2 17) ^^^ (rotr32 x2 19) ^^^ (x2 >>> 10)
  w ++ [w32 (w.getD (i - 16) 0 + s0 + w.getD (i - 7) 0 + s1)]

/-- The full 64-entry message schedule from a 16-word block. -/
def shaSchedule (block : List Nat) : List Nat :=
  Nat.rec block (fun _ w => shaExtendStep w) 48

/-- SHA-256 compression of one 64-entry schedule into the running state
(8 words). -/
def shaCompress (hst : List Nat) (w : List Nat) : List Nat :=
  let step := fun (st : List Nat) (i : Nat) =>
    match st with
    | [a, b, c, d, e, f, g, h] =>
      let s1 := (rotr32 e 6) ^^^ (rotr32 e 11) ^^^ (rotr32 e 25)
      let ch := (e &&& f) ^^^ ((not32 e) &&& g)
      let t1 := w32 (h + s1 + ch + shaK.getD i 0 + w.getD i 0)
      let s0 := (rotr32 a 2) ^^^ (rotr32 a 13) ^^^ (rotr32 a 22)
      let mj := (a &&& b) ^^^ (a &&& c) ^^^ (b &&& c)
      let t2 := w32 (s0 + mj)
      [w32 (t1 + t2), a, b, c, w32 (d + t1), e, f, g]
    | st => st
  let fin := (List.range 64).foldl step hst
  List.zipWith (fun x y => w32 (x + y)) hst fin

/-- SHA-256 padding: append `0x80`, zeros, and the 64-bit bit length. -/
def shaPad (msg : List Nat) : List Nat :=
  let z := (119 - msg.length % 64) % 64
  msg ++ 128 :: List.replicate z 0 ++ natToBytesBE 8 (8 * msg.length)

/-- SHA-256 of a byte string, as 32 bytes. -/
def sha256 (msg : List Nat) : List Nat :=
  let padded := shaPad msg
  let blocks := (List.range (padded.length / 64)).map
    (fun i => (List.range 16).map
      (fun j => bytesToNatBE ((padded.drop (64 * i + 4 * j)).take 4)))
  let hs := blocks.foldl (fun h b => shaCompress h (shaSchedule b))
    [1779033703, 3144134277, 1013904242, 2773480762, 1359893119, 2600822924, 528734635, 1541459225]
  (hs.map (natToBytesBE 4)).flatten

/-! ## AES-256-GCM (`@noble/ciphers/aes`, `gcm`)

NIST SP 800-38D GCM with a 96-bit nonce and empty associated data, as
used by `gcm(sharedSecret, nonceBytes)` in `src/encryption.ts`.  The
underlying 128-bit block cipher is a parameter `E : List Nat → Nat → Nat`
(key bytes and plaintext block to ciphertext block); AES-256 is one
instance.  Encryption appends the 16-byte tag to the ciphertext;
decryption recomputes and checks the tag and fails on mismatch. -/

/-- A 128-bit block cipher: key bytes and a 128-bit block to a block. -/
abbrev BlockCipher : Type := List Nat → Nat → Nat

/-- The GF(2^128) reduction polynomial constant `R` of SP 800-38D. -/
def gfR : Nat := 0xe1 <<< 120

/-- Carry-less multiplication in GF(2^128). -/
def gfMul (x y : Nat) : Nat :=
  (((List.range 128).foldl (fun (p : Nat × Nat) (i : Nat) =>
    let z := if (x >>> (127 - i)) % 2 == 1 then p.1 ^^^ p.2 else p.1
    let v := if p.2 % 2 == 1 then (p.2 >>> 1) ^^^ gfR else p.2 >>> 1
    (z, v)) (0, y))).1

/-- GHASH over a list of 128-bit blocks. -/
def ghash (h : Nat) (blocks : List Nat) : Nat :=
  blocks.foldl (fun y b => gfMul (y ^^^ b) h) 0

/-- The 128-bit blocks of a byte string, the last zero-padded on the
right. -/
def bytesToBlocks (l : List Nat) : List Nat :=
  (List.range (ceilDiv l.length 16)).map
    (fun i => bytesToNatBE ((l.drop (16 * i)).take 16) <<< (8 * (16 - ((l.drop (16 * i)).take 16).length)))

/-- The pre-counter block `J0` for a 12-byte nonce: `nonce || 0^31 || 1`. -/
def gcmJ0 (nonce : List Nat) : Nat := bytesToNatBE nonce * 4294967296 + 1

/-- The `i`-th counter block, `inc32` applied `i + 1` times to `J0`. -/
def gcmCtr (j0 i : Nat) : Nat := (j0 / 4294967296) * 4294967296 + (j0 % 4294967296 + 1 + i) % 4294967296

/-- The CTR keystream covering `len` bytes. -/
def gcmKeystream (e : BlockCipher) (key : List Nat) (j0 len : Nat) : List Nat :=
  ((List.range (ceilDiv len 16)).map (fun i => natToBytesBE 16 (e key (gcmCtr j0 i)))).flatten

/-- Truncate to 128 bits (an ill-behaved abstract cipher could exceed
them; AES cannot). -/
def w128 (x : Nat) : Nat := x % 340282366920938463463374607431768211456

/-- The GCM tag of a ciphertext (no associated data). -/
def gcmTag (e : BlockCipher) (key : List Nat) (j0 : Nat) (ct : List Nat) : List Nat :=
  let h := e key 0
  let s := ghash h (bytesToBlocks ct ++ [8 * ct.length])
  natToBytesBE 16 (w128 (s ^^^ e key j0))

/-- GCM encryption: ciphertext followed by the 16-byte tag. -/
def gcmEncrypt (e : BlockCipher) (key nonce pt : List Nat) : List Nat :=
  let j0 := gcmJ0 nonce
  let ct := List.zipWith (· ^^^ ·) pt (gcmKeystream e key j0 pt.length)
  ct ++ gcmTag e key j0 ct

/-- GCM decryption: check the tag, then XOR the keystream back off. -/
def gcmDecrypt (e : BlockCipher) (key nonce data : List Nat) : Option (List Nat) :=
  if data.length < 16 then none
  else
    let ct := data.take (data.length - 16)
    let tag := data.drop (data.length - 16)
    let j0 := gcmJ0 nonce
    if tag = gcmTag e key j0 ct then
      some (List.zipWith (· ^^^ ·) ct (gcmKeystream e key j0 ct.length))
    else none

/-! ## `src/encryption.ts` -/

/-- `sha256Truncate`: SHA-256 of the UTF-8 topic, truncated to the first
12 bytes; the deterministic AES-GCM nonce of the session. -/
def sha256Truncate (topic : String) : List Nat := (sha256 (strToBytes topic)).take 12

/-- `encrypt(message, sharedSecret, nonce)` from `src/encryption.ts`:
AES-256-GCM of the UTF-8 message under the shared secret, nonce derived
by `sha256Truncate`. -/
def encrypt (e : BlockCipher) (message : String) (sharedSecret : List Nat) (nonce : String) :
    List Nat :=
  gcmEncrypt e sharedSecret (sha256Truncate nonce) (strToBytes message)

/-- `decrypt(ciphertext, sharedSecret, nonce)` from `src/encryption.ts`:
AES-256-GCM decryption followed by `TextDecoder`; `none` models the
exception thrown on tag mismatch. -/
def decrypt (e : BlockCipher) (ciphertext : List Nat) (sharedSecret : List Nat) (nonce : String) :
    Option String :=
  (gcmDecrypt e sharedSecret (sha256Truncate nonce) ciphertext).map bytesToStr

/-! ## Inner messages and external codecs

`InnerMessage` is `{method, params, chunk?}`; its `params` is either a
string (a base64 slice of the deflated payload), a JSON object, or the
empty object `{}` (which is truthy in JavaScript but has no `length`).
The JSON values of the application are an abstract type `Json`; the
external library functions used by the pipeline are collected in
`Codecs` and constrained by round-trip hypotheses in the theorems. -/

/-- `chunk = {id, index, length}` of an inner message. -/
structure ChunkInfo where
  cid : String
  index : Nat
  length : Nat
deriving DecidableEq, Repr

/-- The `params` field of a decrypted inner message. -/
inductive InnerParams (Json : Type) where
  | str (s : List Nat)
  | obj (j : Json)
  | emptyObj
deriving DecidableEq, Repr

/-- A decrypted inner message `{method, params, chunk?}`. -/
structure Inner (Json : Type) where
  method : String
  params : InnerParams Json
  chunk : Option ChunkInfo
deriving DecidableEq, Repr

/-- The external collaborators of the pipeline: the AES block cipher,
`JSON.stringify`/`JSON.parse` for params and for inner messages (the
latter composed with UTF-8), `pako` deflate/inflate, `Buffer` base64, and
secp256k1 ECDH.  `inflate` fails with the thrown message string. -/
structure Codecs (Json : Type) where
  E : BlockCipher
  jsonEnc : Json → List Nat
  jsonDec : List Nat → Option Json
  deflate : List Nat → List Nat
  inflate : List Nat → Except String (List Nat)
  b64enc : List Nat → List Nat
  b64dec : List Nat → List Nat
  innerEnc : Inner Json → List Nat
  innerDec : List Nat → Option (Inner Json)
  ecdh : List Nat → List Nat → List Nat

/-! ## `src/json-rpc.ts` — outbound pipeline -/

/-- `CHUNK_SIZE = 1024 * 16`: maximal length of a base64 slice carried by
one chunk. -/
def CHUNK_SIZE : Nat := 16384

variable {Json : Type}

/-- One iteration of the chunk loop of `getEncryptedJsonPayload`: slice
`[i*CHUNK_SIZE, (i+1)*CHUNK_SIZE)` of the compressed blob, wrap it as
`{method, params: slice, chunk: {id, index: i, length: numChunks}}`, and
encrypt; the envelope carries the base64 ciphertext as its payload. -/
def mkChunkEnvelope (C : Codecs Json) (method : String) (sharedSecret : List Nat) (nonce : String)
    (chunkId : String) (compressed : List Nat) (numChunks i : Nat) : List Nat :=
  let slice := (compressed.drop (i * CHUNK_SIZE)).take CHUNK_SIZE
  let messageToEncrypt := C.innerEnc ⟨method, .str slice, some ⟨chunkId, i, numChunks⟩⟩
  C.b64enc (gcmEncrypt C.E sharedSecret (sha256Truncate nonce) messageToEncrypt)

/-- `getEncryptedJsonPayload(method, params, sharedSecret, nonce)`: for a
truthy `params`, deflate `JSON(params)`, base64-encode, split into
`ceil(len / CHUNK_SIZE)` slices and emit one encrypted envelope per
slice; for a falsy `params`, emit one envelope with inner
`{method, params: {}}` and no chunk field.  `chunkId` stands for the
random 16-byte chunk id drawn in the loop. -/
def getEncryptedJsonPayload (C : Codecs Json) (method : String) (params : Option Json)
    (sharedSecret : List Nat) (nonce : String) (chunkId : String) : List (List Nat) :=
  match params with
  | some p =>
    let compressed := C.b64enc (C.deflate (C.jsonEnc p))
    let numChunks := ceilDiv compressed.length CHUNK_SIZE
    (List.range numChunks).map
      (mkChunkEnvelope C method sharedSecret nonce chunkId compressed numChunks)
  | none =>
    [C.b64enc (gcmEncrypt C.E sharedSecret (sha256Truncate nonce)
      (C.innerEnc ⟨method, .emptyObj, none⟩))]

/-! ## `src/bridge-connection.ts` — session state and events -/

/-- Connection role. -/
inductive Role where
  | creator
  | joiner
deriving DecidableEq, Repr

/-- Events delivered to listeners (`BridgeEventType`). -/
inductive BEvent (Json : Type) where
  | secureChannelEstablished
  | messageReceived (inner : Inner Json)
  | chunkReceived (c : ChunkInfo)
  | errorEv (msg : String)
deriving DecidableEq, Repr

/-- Frames written back to the websocket. -/
inductive WireOut where
  | pong
  | errorReply (msg : String)
  | payload (frame : List Nat)
deriving DecidableEq, Repr

/-- An entry of `incompleteMessages`: the pre-allocated slot array and the
expected chunk count. -/
structure ChunkBuffer where
  chunks : List (Option (List Nat))
  expectedChunks : Nat
deriving DecidableEq, Repr

/-- The mutable state of a `BridgeConnection`.  `remotePublicKey` keeps an
allocation tag beside the bytes because the source compares
`Uint8Array`s with `!==` (reference identity); `nextRef` is the tag
allocator, and every tag stored in the state is below it.  A missing
`id` on the wire is modelled by the empty string (both are falsy). -/
structure SessionSt where
  role : Role
  bridgeId : String
  privKey : List Nat
  bridgeOrigin : Option (List Char)
  established : Bool
  sharedSecret : Option (List Nat)
  remotePublicKey : Option (Nat × List Nat)
  nextRef : Nat
  hasWebsocket : Bool
  seenMessageIds : List String
  validMessagesReceived : Nat
  lastMessageTimestamp : Nat
  incomplete : List (String × ChunkBuffer)
deriving DecidableEq, Repr

/-- The `params` of an inbound wire frame, as far as the handlers inspect
them. -/
inductive FrameParams where
  | handshake (pubkeyHex greetingHex : String)
  | encPayload (payloadB64 : List Nat)
  | otherParams
deriving DecidableEq, Repr

/-- An inbound wire frame (outer JSON-RPC envelope).  `fid` is the `id`
field; `""` models a missing or empty id. -/
structure Frame where
  method : String
  fid : String
  origin : Option (List Char)
  params : FrameParams
deriving DecidableEq, Repr

/-- The result of handling one inbound frame. -/
structure StepResult (Json : Type) where
  st : SessionSt
  events : List (BEvent Json)
  wire : List WireOut
deriving DecidableEq, Repr

/-! ### The `incompleteMessages` map -/

/-- `Map.get`. -/
def alookup (k : String) : List (String × ChunkBuffer) → Option ChunkBuffer
  | [] => none
  | (k', v) :: rest => if k' = k then some v else alookup k rest

/-- `Map.set`. -/
def aset (k : String) (v : ChunkBuffer) :
    List (String × ChunkBuffer) → List (String × ChunkBuffer)
  | [] => [(k, v)]
  | (k', v') :: rest => if k' = k then (k, v) :: rest else (k', v') :: aset k v rest

/-- `Map.delete`. -/
def aerase (k : String) : List (String × ChunkBuffer) → List (String × ChunkBuffer)
  | [] => []
  | (k', v') :: rest => if k' = k then rest else (k', v') :: aerase k rest

/-- JavaScript array element assignment: in-bounds writes replace, an
out-of-bounds write extends the array with holes. -/
def listSetGrow (l : List (Option (List Nat))) (i : Nat) (v : List Nat) :
    List (Option (List Nat)) :=
  if i < l.length then l.set i (some v)
  else l ++ List.replicate (i - l.length) none ++ [some v]

/-! ### Hex (`Buffer.from(s, "hex")`, `bytesToHex`) -/

/-- Value of a hex digit. -/
def hexDigit (c : Char) : Option Nat :=
  if '0' ≤ c ∧ c ≤ '9' then some (c.toNat - 48)
  else if 'a' ≤ c ∧ c ≤ 'f' then some (c.toNat - 87)
  else if 'A' ≤ c ∧ c ≤ 'F' then some (c.toNat - 55)
  else none

/-- `Buffer.from(_, "hex")` on a character list: decode pairs, stop at the
first invalid pair. -/
def hexDecodeAux : List Char → List Nat
  | c1 :: c2 :: rest =>
    match hexDigit c1, hexDigit c2 with
    | some h, some l => (16 * h + l) :: hexDecodeAux rest
    | _, _ => []
  | _ => []

/-- `Buffer.from(s, "hex")`. -/
def hexDecode (s : String) : List Nat := hexDecodeAux s.data

/-- Lower-case hex encoding of a byte string (`bytesToHex`). -/
def bytesToHex (l : List Nat) : String :=
  ⟨(l.map (fun b =>
    ["0123456789abcdef".data.getD (b / 16 % 16) '0',
     "0123456789abcdef".data.getD (b % 16) '0'])).flatten⟩

/-! ### `parseOriginHeader` (`src/utils.ts`)

`new URL(origin)` is modelled for origin-shaped inputs: a scheme followed
by `:`, an optional `//host[:port]` authority, and an optional path or
query.  Inputs the model cannot parse take the `catch` branch, which
returns the input unchanged — exactly what the source does for strings
like `"nodejs"`. -/

/-- Characters allowed in a URL scheme after the leading letter. -/
def isSchemeChar (c : Char) : Bool := c.isAlphanum || c = '+' || c = '-' || c = '.'

/-- A model of `new URL`, returning `protocol` (with the trailing `:`)
and `host` (possibly with a port). -/
def urlParse (s : List Char) : Option (List Char × List Char) :=
  let scheme := s.takeWhile (fun c => c != ':')
  match s.drop scheme.length with
  | ':' :: r =>
    if scheme ≠ [] ∧ (scheme.headD ' ').isAlpha ∧ scheme.all isSchemeChar then
      match r with
      | '/' :: '/' :: r2 =>
        let host := r2.takeWhile (fun c => c != '/' && c != '?' && c != '#')
        if host = [] then none
        else some (scheme ++ [':'], host)
      | _ => some (scheme ++ [':'], [])
    else none
  | _ => none

/-- `parseOriginHeader`: reduce an origin to
`protocol + "//" + host.split(":")[0]`, or return the input unchanged
when URL parsing fails. -/
def parseOriginHeader (origin : List Char) : List Char :=
  match urlParse origin with
  | some (proto, host) => proto ++ '/' :: '/' :: host.takeWhile (fun c => c != ':')
  | none => origin

/-! ### Error message texts -/

/-- `Origin ${parsedOrigin} does not match expected origin ${bridgeOrigin}`;
a falsy inbound origin prints as `undefined`. -/
def originMismatchMsg (parsed : Option (List Char)) (expected : List Char) : String :=
  ⟨"Origin ".data ++ parsed.getD "undefined".data ++
    " does not match expected origin ".data ++ expected⟩

/-- Prefix of every error emitted from the `catch` of
`handleEncryptedMessage`. -/
def decryptErrMsg (detail : String) : String := "Error decrypting message: " ++ detail

/-- The chunk-count mismatch error thrown (and re-emitted) by
`handleEncryptedMessage`. -/
def chunkMismatchMsg (cid : String) : String :=
  decryptErrMsg ("Chunk count mismatch for id " ++ cid)

/-- The reply and event text of a rejected post-establishment handshake. -/
def handshakeRejectMsg : String := "Secure channel already established, ignoring handshake"

/-- Prefix of every error emitted from the `catch` of `handleHandshake`. -/
def handshakeErrMsg (detail : String) : String := "Error handling handshake: " ++ detail

/-! ### `handleEncryptedMessage` -/

/-- JavaScript string coercion used by `Array.join` when a stored chunk
was not a string. -/
def paramsToBytes : InnerParams Json → List Nat
  | .str s => s
  | _ => strToBytes "[object Object]"

/-- The single-part branch of `handleEncryptedMessage` (no chunk field, or
`chunk.length == 1`): the `hello` establishment path, the compressed
single-part path (base64-decode, inflate, `JSON.parse`, drop the chunk
field), the legacy uncompressed path entered when inflate throws
`"incorrect header check"`, and emission of the message as-is when
`params` is falsy or has no `length`. -/
def handleSinglePart (C : Codecs Json) (st : SessionSt) (inner : Inner Json) :
    SessionSt × List (BEvent Json) :=
  if inner.method = "hello" ∧ st.established = false then
    ({st with established := true}, [.secureChannelEstablished])
  else
    match inner.params with
    | .str s =>
      if 0 < s.length then
        match C.inflate (C.b64dec s) with
        | .ok d =>
          match C.jsonDec d with
          | some j => (st, [.messageReceived ⟨inner.method, .obj j, none⟩])
          | none => (st, [.errorEv (decryptErrMsg "Failed to parse data: ")])
        | .error e =>
          if e = "incorrect header check" then
            match C.jsonDec s with
            | some j => (st, [.messageReceived ⟨inner.method, .obj j, inner.chunk⟩])
            | none => (st, [.messageReceived inner])
          else (st, [.errorEv (decryptErrMsg "Failed to parse data: ")])
      else (st, [.messageReceived inner])
    | _ => (st, [.messageReceived inner])

/-- The chunked branch of `handleEncryptedMessage`: create the buffer on
first contact, fail on an expected-count mismatch (the buffer is kept),
store the slice, emit `ChunkRecieved`, and on completion join the slots
in index order, base64-decode, inflate, `JSON.parse`, delete the buffer
and emit `MessageReceived`. -/
def handleChunkPart (C : Codecs Json) (st : SessionSt) (inner : Inner Json) (c : ChunkInfo) :
    SessionSt × List (BEvent Json) :=
  let st1 :=
    if (alookup c.cid st.incomplete).isNone then
      {st with
        incomplete := aset c.cid ⟨List.replicate c.length none, c.length⟩ st.incomplete}
    else st
  match alookup c.cid st1.incomplete with
  | none => (st1, [.errorEv (decryptErrMsg "missing buffer")])
  | some msg =>
    if msg.expectedChunks ≠ c.length then
      (st1, [.errorEv (chunkMismatchMsg c.cid)])
    else
      let msg' : ChunkBuffer :=
        ⟨listSetGrow msg.chunks c.index (paramsToBytes inner.params), msg.expectedChunks⟩
      let st2 := {st1 with incomplete := aset c.cid msg' st1.incomplete}
      if msg'.chunks.all Option.isSome then
        let full := (msg'.chunks.map (fun o => o.getD [])).flatten
        match C.inflate (C.b64dec full) with
        | .error _ => (st2, [.chunkReceived c, .errorEv (decryptErrMsg "inflate")])
        | .ok d =>
          match C.jsonDec d with
          | none => (st2, [.chunkReceived c, .errorEv (decryptErrMsg "parse")])
          | some j =>
            ({st2 with incomplete := aerase c.cid st2.incomplete},
             [.chunkReceived c, .messageReceived ⟨inner.method, .obj j, none⟩])
      else (st2, [.chunkReceived c])

/-- `handleEncryptedMessage`: base64-decode the payload, decrypt with the
shared secret and the bridge-id nonce, `JSON.parse`, and dispatch to the
single-part or chunked branch; every thrown error surfaces as one
`Error` event. -/
def handleEncryptedMessage (C : Codecs Json) (st : SessionSt) (payloadB64 : List Nat) :
    SessionSt × List (BEvent Json) :=
  match st.sharedSecret with
  | none => (st, [.errorEv (decryptErrMsg "Shared secret not available")])
  | some key =>
    match gcmDecrypt C.E key (sha256Truncate st.bridgeId) (C.b64dec payloadB64) with
    | none => (st, [.errorEv (decryptErrMsg "tag mismatch")])
    | some plain =>
      match C.innerDec plain with
      | none => (st, [.errorEv (decryptErrMsg "invalid JSON")])
      | some inner =>
        match inner.chunk with
        | none => handleSinglePart C st inner
        | some c =>
          if c.length = 1 then handleSinglePart C st inner
          else handleChunkPart C st inner c

/-! ### `handleHandshake` (creator) -/

/-- `handleHandshake`: parse the joiner key from hex (a fresh
`Uint8Array`, hence a fresh reference tag), reject when the secure
channel is already established and the stored reference differs (it
always does), otherwise store the key, derive the shared secret, check
the greeting decrypts to `"hello"`, and reply with an encrypted `hello`.
After a successful send the source reads `.messageIds` of the boolean
returned by `sendEncryptedJsonRpcRequest` (`src/json-rpc.ts`), so this
path throws a `TypeError` that the surrounding `catch` turns into an
`Error` event before `secureChannelEstablished` is ever set. -/
def handleHandshake (C : Codecs Json) (st : SessionSt) (params : FrameParams) :
    StepResult Json :=
  match params with
  | .handshake pubkeyHex greetingHex =>
    let freshRef := st.nextRef
    let joinerKey := hexDecode pubkeyHex
    let st := {st with nextRef := st.nextRef + 1}
    if st.established &&
        (match st.remotePublicKey with
         | none => true
         | some r => r.1 != freshRef) then
      ⟨st, [.errorEv handshakeRejectMsg], [.errorReply handshakeRejectMsg]⟩
    else
      let st := {st with remotePublicKey := some (freshRef, joinerKey)}
      let secret := C.ecdh st.privKey joinerKey
      let st := {st with sharedSecret := some secret}
      match gcmDecrypt C.E secret (sha256Truncate st.bridgeId) (hexDecode greetingHex) with
      | none => ⟨st, [.errorEv (handshakeErrMsg "decrypt failed")], []⟩
      | some plain =>
        if bytesToStr plain ≠ "hello" then
          ⟨st, [.errorEv (handshakeErrMsg "Invalid greeting")], []⟩
        else
          if st.hasWebsocket then
            let pays := getEncryptedJsonPayload C "hello" none secret st.bridgeId ""
            ⟨st, [.errorEv (handshakeErrMsg "TypeError")], pays.map WireOut.payload⟩
          else if st.established then ⟨st, [], []⟩
          else ⟨{st with established := true}, [.secureChannelEstablished], []⟩
  | _ => ⟨{st with nextRef := st.nextRef + 1},
      [.errorEv (handshakeErrMsg "TypeError")], []⟩

/-! ### `handleWebSocketMessage` -/

/-- Acceptance of a fresh inbound id: insert it into `seenMessageIds`,
bump `validMessagesReceived`, record the receive timestamp. -/
def acceptFrame (st : SessionSt) (fid : String) (now : Nat) : SessionSt :=
  {st with
    seenMessageIds := fid :: st.seenMessageIds,
    validMessagesReceived := st.validMessagesReceived + 1,
    lastMessageTimestamp := now}

/-- `handleWebSocketMessage`: answer pings, ignore pongs, drop frames with
a falsy or already-seen id, record accepted ids (and bump the counter and
timestamp) before dispatching to the handshake or encrypted-message
handler, with the joiner-side origin check in front of decryption. -/
def handleWebSocketMessage (C : Codecs Json) (st : SessionSt) (now : Nat) (data : Frame) :
    StepResult Json :=
  if data.method = "ping" then ⟨st, [], [.pong]⟩
  else if data.method = "pong" then ⟨st, [], []⟩
  else if data.fid = "" then ⟨st, [], []⟩
  else if st.seenMessageIds.contains data.fid then ⟨st, [], []⟩
  else
    let st := acceptFrame st data.fid now
    let r1 : StepResult Json :=
      if st.role = Role.creator ∧ data.method = "handshake" then
        handleHandshake C st data.params
      else ⟨st, [], []⟩
    if data.method = "encryptedMessage" then
      let stp := r1.st
      if stp.role = Role.joiner ∧ stp.bridgeOrigin ≠ none ∧ stp.bridgeOrigin ≠ some [] then
        let parsedOrigin : Option (List Char) :=
          match data.origin with
          | some o => if o = [] then none else some (parseOriginHeader o)
          | none => none
        if parsedOrigin ≠ stp.bridgeOrigin then
          ⟨stp, r1.events ++
            [.errorEv (originMismatchMsg parsedOrigin (stp.bridgeOrigin.getD []))], r1.wire⟩
        else
          let r2 :=
            match data.params with
            | .encPayload p => handleEncryptedMessage C stp p
            | _ => (stp, [.errorEv (decryptErrMsg "missing payload")])
          ⟨r2.1, r1.events ++ r2.2, r1.wire⟩
      else
        let r2 :=
          match data.params with
          | .encPayload p => handleEncryptedMessage C stp p
          | _ => (stp, [.errorEv (decryptErrMsg "missing payload")])
        ⟨r2.1, r1.events ++ r2.2, r1.wire⟩
    else r1

/-- Sequential processing of a list of encrypted payloads through
`handleEncryptedMessage`, accumulating emitted events. -/
def processEnvelopes (C : Codecs Json) (st : SessionSt) :
    List (List Nat) → SessionSt × List (BEvent Json)
  | [] => (st, [])
  | p :: rest =>
    let r := handleEncryptedMessage C st p
    let r' := processEnvelopes C r.1 rest
    (r'.1, r.2 ++ r'.2)

/-- The `MessageReceived` payloads among a list of events. -/
def messagesOf (evs : List (BEvent Json)) : List (Inner Json) :=
  evs.filterMap (fun e =>
    match e with
    | .messageReceived m => some m
    | _ => none)

/-! ### `handleReconnect` and `resetReconnection` -/

/-- Modelled from the spec: `DEFAULT_MAX_RECONNECT_ATTEMPTS` is defined in
`src/constants.ts`, which is not among the available sources; the spec
fixes the default at 10. -/
def DEFAULT_MAX_RECONNECT_ATTEMPTS : Nat := 10

/-- Reconnection bookkeeping of a `BridgeConnection`. -/
structure ReconnSt where
  reconnectAttempts : Nat
  isReconnecting : Bool
  maxReconnectAttempts : Nat
deriving DecidableEq, Repr

/-- The outcome of one `handleReconnect` call. -/
inductive ReconnAction where
  | scheduleIn (delayMs : Nat)
  | giveUp
deriving DecidableEq, Repr

/-- `handleReconnect`: bump the attempt counter; beyond
`maxReconnectAttempts` reset the state (`resetReconnection`) and stop;
otherwise schedule the next attempt, immediately for the first attempt
and after `1000 * 2^(attempts - 2)` ms for later ones. -/
def handleReconnect (st : ReconnSt) : ReconnSt × ReconnAction :=
  let attempts := st.reconnectAttempts + 1
  if st.maxReconnectAttempts < attempts then
    ({st with reconnectAttempts := 0, isReconnecting := false}, .giveUp)
  else
    ({st with reconnectAttempts := attempts, isReconnecting := true},
     .scheduleIn (if 1 < attempts then 1000 * 2 ^ (attempts - 2) else 0))

/-! ### `emit` -/

/-- A listener either returns or throws a message. -/
abbrev Listener (β : Type) : Type := β → Except String Unit

/-- `emit`: run every registered listener for the event on the argument;
each call sits in its own `try`/`catch`, a thrown error only becomes a
log entry.  The session context `ctx` is threaded through unchanged —
`emit` reads no session state and writes none. -/
def emitDispatch {α β : Type} (ctx : α) (listeners : List (Listener β)) (arg : β) :
    α × List (Option String) :=
  (ctx, listeners.map (fun l =>
    match l arg with
    | .ok _ => none
    | .error e => some e))

/-! ## A concrete codec instance

Witnesses and counterexamples need executable instances of the abstract
collaborators.  JSON values are identified with their encodings
(`CJson := List Nat`), compression and base64 are the identity (both are
bijections whose exact coding is outside the sources), and inner
messages get a simple verified self-delimiting serializer. -/

/-- Concrete JSON values: identified with their byte encodings. -/
abbrev CJson : Type := List Nat

/-- Unary length code: `n` ones then a zero. -/
def encNat (n : Nat) : List Nat := List.replicate n 1 ++ [0]

/-- Decoder for `encNat`, returning the value and the rest. -/
def decNat : List Nat → Option (Nat × List Nat)
  | 0 :: rest => some (0, rest)
  | 1 :: rest =>
    match decNat rest with
    | some (n, r) => some (n + 1, r)
    | none => none
  | _ => none

/-- Length-prefixed byte string. -/
def encBytes (l : List Nat) : List Nat := encNat l.length ++ l

/-- Decoder for `encBytes`. -/
def decBytes (bs : List Nat) : Option (List Nat × List Nat) :=
  match decNat bs with
  | some (n, r) => if n ≤ r.length then some (r.take n, r.drop n) else none
  | none => none

/-- Length-prefixed string (as character codes). -/
def encStr (s : String) : List Nat := encBytes (s.data.map Char.toNat)

/-- Decoder for `encStr`. -/
def decStr (bs : List Nat) : Option (String × List Nat) :=
  match decBytes bs with
  | some (cs, r) => some (⟨cs.map Char.ofNat⟩, r)
  | none => none

/-- Serializer for inner messages over `CJson`. -/
def cInnerEnc (x : Inner CJson) : List Nat :=
  encStr x.method ++
  (match x.params with
   | .str s => 0 :: encBytes s
   | .obj j => 1 :: encBytes j
   | .emptyObj => [2]) ++
  (match x.chunk with
   | none => [0]
   | some c => 1 :: (encStr c.cid ++ encNat c.index ++ encNat c.length))

/-- Decoder for the optional chunk field. -/
def decChunk : List Nat → Option (Option ChunkInfo × List Nat)
  | 0 :: r => some (none, r)
  | 1 :: r =>
    match decStr r with
    | some (cid, r1) =>
      match decNat r1 with
      | some (i, r2) =>
        match decNat r2 with
        | some (n, r3) => some (some ⟨cid, i, n⟩, r3)
        | none => none
      | none => none
    | none => none
  | _ => none

/-- Decoder for `cInnerEnc`. -/
def cInnerDec (bs : List Nat) : Option (Inner CJson) :=
  match decStr bs with
  | none => none
  | some (method, r1) =>
    match r1 with
    | 0 :: r2 =>
      match decBytes r2 with
      | some (s, r3) =>
        match decChunk r3 with
        | some (c, _) => some ⟨method, .str s, c⟩
        | none => none
      | none => none
    | 1 :: r2 =>
      match decBytes r2 with
      | some (j, r3) =>
        match decChunk r3 with
        | some (c, _) => some ⟨method, .obj j, c⟩
        | none => none
      | none => none
    | 2 :: r2 =>
      match decChunk r2 with
      | some (c, _) => some ⟨method, .emptyObj, c⟩
      | none => none
    | _ => none

/-- The concrete codec bundle: identity compression and base64, a
degenerate block cipher (the round-trip theorems hold for every block
cipher, AES-256 included), and the verified inner serializer. -/
def cCodecs : Codecs CJson where
  E := fun _ b => b
  jsonEnc := id
  jsonDec := some
  deflate := id
  inflate := fun l => .ok l
  b64enc := id
  b64dec := id
  innerEnc := cInnerEnc
  innerDec := cInnerDec
  ecdh := fun _ _ => List.replicate 32 0

/-- A joiner state with one seen id, for the C2 witness. -/
def stWitC2 : SessionSt where
  role := Role.joiner
  bridgeId := "b"
  privKey := []
  bridgeOrigin := none
  established := true
  sharedSecret := none
  remotePublicKey := none
  nextRef := 0
  hasWebsocket := true
  seenMessageIds := ["aa"]
  validMessagesReceived := 1
  lastMessageTimestamp := 5
  incomplete := []

/-- A creator state with no shared secret, for the C9 witness: handling
its `encryptedMessage` frame fails with only an `Error` event. -/
def stWitC9 : SessionSt where
  role := Role.creator
  bridgeId := "b"
  privKey := []
  bridgeOrigin := none
  established := true
  sharedSecret := none
  remotePublicKey := none
  nextRef := 0
  hasWebsocket := true
  seenMessageIds := []
  validMessagesReceived := 0
  lastMessageTimestamp := 0
  incomplete := []

/-- The C9 witness frame. -/
def frWitC9 : Frame := ⟨"encryptedMessage", "cc", none, .encPayload [1, 2, 3]⟩

/-! ### C6 — chunk-count mismatch -/

/-- The shared secret used in the C6 scenario. -/
def keyWitC6 : List Nat := List.replicate 32 7

/-- A session holding a chunk buffer for `"cid1"` expecting 2 chunks. -/
def stWitC6 : SessionSt where
  role := Role.joiner
  bridgeId := "b"
  privKey := []
  bridgeOrigin := none
  established := true
  sharedSecret := some keyWitC6
  remotePublicKey := none
  nextRef := 0
  hasWebsocket := true
  seenMessageIds := []
  validMessagesReceived := 0
  lastMessageTimestamp := 0
  incomplete := [("cid1", ⟨[none, none], 2⟩)]

/-- An envelope for `"cid1"` announcing 3 chunks — a length mismatch with
the stored buffer. -/
def payloadWitC6 : List Nat :=
  cCodecs.b64enc (gcmEncrypt cCodecs.E keyWitC6 (sha256Truncate "b")
    (cInnerEnc ⟨"m", .str [5], some ⟨"cid1", 0, 3⟩⟩))

/-! ### C5 — empty or absent params -/

/-- The shared secret used in the C5 scenario. -/
def keyWitC5 : List Nat := List.replicate 32 3

/-! ### C3 — post-establishment handshake -/

/-- The joiner public-key bytes stored in the creator's state. -/
def keyBytesC3 : List Nat := [2, 211, 255]

/-- A creator whose secure channel is established, holding
`remotePublicKey = keyBytesC3` under reference tag 0, with the tag
allocator at 1. -/
def stWitC3 : SessionSt where
  role := Role.creator
  bridgeId := "b"
  privKey := [1]
  bridgeOrigin := none
  established := true
  sharedSecret := some (List.replicate 32 5)
  remotePublicKey := some (0, keyBytesC3)
  nextRef := 1
  hasWebsocket := true
  seenMessageIds := []
  validMessagesReceived := 0
  lastMessageTimestamp := 0
  incomplete := []

/-- A joiner expecting origin `https://good.example`, for the C4
witness. -/
def stWitC4 : SessionSt where
  role := Role.joiner
  bridgeId := "b"
  privKey := []
  bridgeOrigin := some "https://good.example".data
  established := true
  sharedSecret := none
  remotePublicKey := none
  nextRef := 0
  hasWebsocket := true
  seenMessageIds := []
  validMessagesReceived := 0
  lastMessageTimestamp := 0
  incomplete := []

/-! ### C1 — chunking pipeline round trip -/

/-- The deflated, base64-encoded blob of a params value. -/
def chunkBlob (C : Codecs Json) (p : Json) : List Nat := C.b64enc (C.deflate (C.jsonEnc p))

/-- The number of chunks the blob is split into. -/
def numChunksOf (C : Codecs Json) (p : Json) : Nat := ceilDiv (chunkBlob C p).length CHUNK_SIZE

/-- Slice `i` of a blob. -/
def sliceOf (blob : List Nat) (i : Nat) : List Nat :=
  (blob.drop (i * CHUNK_SIZE)).take CHUNK_SIZE

/-- The slot array of a chunk buffer that has received exactly the
indices in `s`. -/
def partialChunks (blob : List Nat) (n : Nat) (s : List Nat) : List (Option (List Nat)) :=
  (List.range n).map (fun j => if s.contains j then some (sliceOf blob j) else none)

/-- The session state after the chunk group `cid` has received the
indices in `s` (`s ≠ []`). -/
def chunkStateAfter (st0 : SessionSt) (cid : String) (blob : List Nat) (n : Nat)
    (s : List Nat) : SessionSt :=
  {st0 with incomplete := aset cid ⟨partialChunks blob n s, n⟩ st0.incomplete}

/-- An established session with shared secret `replicate 32 9`, for the
C1 witness. -/
def stWitC1 : SessionSt where
  role := Role.joiner
  bridgeId := "b"
  privKey := []
  bridgeOrigin := none
  established := true
  sharedSecret := some (List.replicate 32 9)
  remotePublicKey := none
  nextRef := 0
  hasWebsocket := true
  seenMessageIds := []
  validMessagesReceived := 0
  lastMessageTimestamp := 0
  incomplete := []


/-! ## Theorems -/
theorem natToBytesBE_length (k n : Nat) : (natToBytesBE k n).length = k := by
  simp [natToBytesBE]

theorem utf8Decode_encodeChar (c : Char) (bs : List Nat) :
    utf8Decode (utf8EncodeChar c ++ bs) = c :: utf8Decode bs := by
  by_cases h1 : c.toNat < 128
  · simp only [utf8EncodeChar, if_pos h1, List.cons_append, List.nil_append]
    rw [utf8Decode.eq_def]
    simp only [if_pos h1, Char.ofNat_toNat]
  · by_cases h2 : c.toNat < 2048
    · simp only [utf8EncodeChar, if_neg h1, if_pos h2, List.cons_append, List.nil_append]
      rw [utf8Decode.eq_def]
      have e1 : ¬ (192 + c.toNat / 64 < 128) := by omega
      have e2 : ¬ (192 + c.toNat / 64 < 192) := by omega
      have e3 : 192 + c.toNat / 64 < 224 := by omega
      simp only [e1, e2, e3, if_true, if_false, ite_true, ite_false]
      have e4 : (192 + c.toNat / 64 - 192) * 64 + (128 + c.toNat % 64 - 128) = c.toNat := by omega
      rw [e4, Char.ofNat_toNat]
    · by_cases h3 : c.toNat < 65536
      · simp only [utf8EncodeChar, if_neg h1, if_neg h2, if_pos h3, List.cons_append,
          List.nil_append]
        rw [utf8Decode.eq_def]
        have e1 : ¬ (224 + c.toNat / 4096 < 128) := by omega
        have e2 : ¬ (224 + c.toNat / 4096 < 192) := by omega
        have e3 : ¬ (224 + c.toNat / 4096 < 224) := by omega
        have e4 : 224 + c.toNat / 4096 < 240 := by omega
        simp only [e1, e2, e3, e4, if_true, if_false, ite_true, ite_false]
        have e5 : (224 + c.toNat / 4096 - 224) * 4096 + (128 + c.toNat / 64 % 64 - 128) * 64 +
            (128 + c.toNat % 64 - 128) = c.toNat := by omega
        rw [e5, Char.ofNat_toNat]
      · simp only [utf8EncodeChar, if_neg h1, if_neg h2, if_neg h3, List.cons_append,
          List.nil_append]
        rw [utf8Decode.eq_def]
        have e1 : ¬ (240 + c.toNat / 262144 < 128) := by omega
        have e2 : ¬ (240 + c.toNat / 262144 < 192) := by omega
        have e3 : ¬ (240 + c.toNat / 262144 < 224) := by omega
        have e4 : ¬ (240 + c.toNat / 262144 < 240) := by omega
        simp only [e1, e2, e3, e4, if_true, if_false, ite_true, ite_false]
        have e5 : (240 + c.toNat / 262144 - 240) * 262144 +
            (128 + c.toNat / 4096 % 64 - 128) * 4096 +
            (128 + c.toNat / 64 % 64 - 128) * 64 + (128 + c.toNat % 64 - 128) = c.toNat := by
          omega
        rw [e5, Char.ofNat_toNat]

theorem utf8Decode_charsToBytes (cs : List Char) :
    utf8Decode (charsToBytes cs) = cs := by
  induction cs with
  | nil => rfl
  | cons c cs ih =>
      simp only [charsToBytes, List.map_cons, List.flatten_cons]
      rw [utf8Decode_encodeChar]
      simpa [charsToBytes] using congrArg (c :: ·) ih

theorem bytesToStr_strToBytes (s : String) : bytesToStr (strToBytes s) = s := by
  cases s with
  | mk data => simp [bytesToStr, strToBytes, utf8Decode_charsToBytes]

theorem shaCompress_length (hst w : List Nat) (hh : hst.length = 8) :
    (shaCompress hst w).length = 8 := by
  have hfin : ∀ (l : List Nat) (init : List Nat), init.length = 8 →
      (l.foldl (fun (st : List Nat) (i : Nat) =>
        match st with
        | [a, b, c, d, e, f, g, h] =>
          let s1 := (rotr32 e 6) ^^^ (rotr32 e 11) ^^^ (rotr32 e 25)
          let ch := (e &&& f) ^^^ ((not32 e) &&& g)
          let t1 := w32 (h + s1 + ch + shaK.getD i 0 + w.getD i 0)
          let s0 := (rotr32 a 2) ^^^ (rotr32 a 13) ^^^ (rotr32 a 22)
          let mj := (a &&& b) ^^^ (a &&& c) ^^^ (b &&& c)
          let t2 := w32 (s0 + mj)
          [w32 (t1 + t2), a, b, c, w32 (d + t1), e, f, g]
        | st => st) init).length = 8 := by
    intro l
    induction l with
    | nil => intro init h; simpa using h
    | cons x xs ih =>
        intro init h
        simp only [List.foldl_cons]
        apply ih
        match init, h with
        | [a, b, c, d, e, f, g, hh], _ => simp
  simp only [shaCompress]
  rw [List.length_zipWith, hfin (List.range 64) hst hh, hh]
  rfl

theorem sha256_length (msg : List Nat) : (sha256 msg).length = 32 := by
  have hfold : ∀ (bs : List (List Nat)) (init : List Nat), init.length = 8 →
      (bs.foldl (fun h b => shaCompress h (shaSchedule b)) init).length = 8 := by
    intro bs
    induction bs with
    | nil => intro init h; simpa using h
    | cons x xs ih =>
        intro init h
        simp only [List.foldl_cons]
        exact ih _ (shaCompress_length _ _ h)
  simp only [sha256]
  have h8 := hfold ((List.range ((shaPad msg).length / 64)).map
    (fun i => (List.range 16).map
      (fun j => bytesToNatBE (((shaPad msg).drop (64 * i + 4 * j)).take 4))))
    [1779033703, 3144134277, 1013904242, 2773480762, 1359893119, 2600822924, 528734635, 1541459225] (by simp)
  generalize hgen : ((List.range ((shaPad msg).length / 64)).map
    (fun i => (List.range 16).map
      (fun j => bytesToNatBE (((shaPad msg).drop (64 * i + 4 * j)).take 4)))).foldl
      (fun h b => shaCompress h (shaSchedule b))
      [1779033703, 3144134277, 1013904242, 2773480762, 1359893119, 2600822924, 528734635, 1541459225] = hs at h8 ⊢
  rw [List.length_flatten]
  have hm : (hs.map (natToBytesBE 4)).map List.length = List.replicate hs.length 4 := by
    rw [List.map_map]
    have : List.length ∘ natToBytesBE 4 = fun _ => 4 := by
      funext x; simp [natToBytesBE_length]
    rw [this, List.map_const']
  rw [hm, h8]
  simp

theorem gcmKeystream_length (e : BlockCipher) (key : List Nat) (j0 len : Nat) :
    (gcmKeystream e key j0 len).length = 16 * ceilDiv len 16 := by
  simp only [gcmKeystream]
  rw [List.length_flatten, List.map_map]
  have : (List.length ∘ fun i => natToBytesBE 16 (e key (gcmCtr j0 i))) = fun _ => 16 := by
    funext x; simp [natToBytesBE_length]
  rw [this, List.map_const', List.sum_replicate]
  simp [Nat.mul_comm]

theorem len_le_ceilDiv16 (len : Nat) : len ≤ 16 * ceilDiv len 16 := by
  simp only [ceilDiv]
  omega

/-- GCM round trip: decryption undoes encryption for the same key and
nonce, for any block cipher instance. -/
theorem gcmDecrypt_gcmEncrypt (e : BlockCipher) (key nonce pt : List Nat) :
    gcmDecrypt e key nonce (gcmEncrypt e key nonce pt) = some pt := by
  have hks : (gcmKeystream e key (gcmJ0 nonce) pt.length).length = 16 * ceilDiv pt.length 16 :=
    gcmKeystream_length _ _ _ _
  have hctlen : (List.zipWith (· ^^^ ·) pt (gcmKeystream e key (gcmJ0 nonce) pt.length)).length
      = pt.length := by
    rw [List.length_zipWith, hks]
    exact Nat.min_eq_left (len_le_ceilDiv16 _)
  have htaglen : (gcmTag e key (gcmJ0 nonce)
      (List.zipWith (· ^^^ ·) pt (gcmKeystream e key (gcmJ0 nonce) pt.length))).length = 16 := by
    simp [gcmTag, natToBytesBE_length]
  simp only [gcmEncrypt, gcmDecrypt]
  rw [List.length_append, hctlen, htaglen]
  have hlt : ¬ (pt.length + 16 < 16) := by omega
  rw [if_neg hlt]
  have hsub : pt.length + 16 - 16 = pt.length := by omega
  rw [hsub]
  rw [List.take_left' hctlen, List.drop_left' hctlen]
  rw [if_pos rfl, hctlen]
  congr 1
  have hxor : ∀ (ks : List Nat) (p : List Nat), p.length ≤ ks.length →
      List.zipWith (· ^^^ ·) (List.zipWith (· ^^^ ·) p ks) ks = p := by
    intro ks
    induction ks with
    | nil =>
        intro p hp
        have : p = [] := List.length_eq_zero.mp (Nat.le_zero.mp (by simpa using hp))
        simp [this]
    | cons k ks ih =>
        intro p hp
        cases p with
        | nil => simp
        | cons x xs =>
            simp only [List.zipWith_cons_cons]
            rw [Nat.xor_cancel_right]
            congr 1
            exact ih xs (by simpa using hp)
  exact hxor _ _ (by rw [hks]; exact len_le_ceilDiv16 _)

theorem decNat_encNat (n : Nat) (rest : List Nat) : decNat (encNat n ++ rest) = some (n, rest) := by
  induction n with
  | zero => rfl
  | succ k ih =>
      simp only [encNat, List.replicate_succ, List.cons_append] at *
      rw [decNat, ih]

theorem decBytes_encBytes (l rest : List Nat) : decBytes (encBytes l ++ rest) = some (l, rest) := by
  simp only [decBytes, encBytes, List.append_assoc, decNat_encNat]
  rw [if_pos (by simp), List.take_left, List.drop_left]

theorem decStr_encStr (s : String) (rest : List Nat) : decStr (encStr s ++ rest) = some (s, rest) := by
  simp only [decStr, encStr, decBytes_encBytes]
  congr 2
  cases s with
  | mk cs =>
      simp only [List.map_map]
      have : Char.ofNat ∘ Char.toNat = id := by
        funext c; simp [Function.comp, Char.ofNat_toNat]
      simp [this]

theorem cInnerDec_cInnerEnc (x : Inner CJson) : cInnerDec (cInnerEnc x) = some x := by
  obtain ⟨method, params, chunk⟩ := x
  have hchunk0 : decChunk (match chunk with
      | none => [0]
      | some c => 1 :: (encStr c.cid ++ (encNat c.index ++ encNat c.length))) =
      some (chunk, []) := by
    cases chunk with
    | none => rfl
    | some c =>
        have h1 : encStr c.cid ++ (encNat c.index ++ encNat c.length) =
            encStr c.cid ++ (encNat c.index ++ (encNat c.length ++ [])) := by simp
        dsimp only
        rw [h1]
        simp only [decChunk, decStr_encStr, decNat_encNat]
  cases params with
  | str s =>
      simp only [cInnerEnc, List.append_assoc, cInnerDec, decStr_encStr, List.cons_append,
        decBytes_encBytes, hchunk0]
  | obj j =>
      simp only [cInnerEnc, List.append_assoc, cInnerDec, decStr_encStr, List.cons_append,
        decBytes_encBytes, hchunk0]
  | emptyObj =>
      simp only [cInnerEnc, List.append_assoc, cInnerDec, decStr_encStr, List.cons_append,
        List.nil_append, hchunk0]

/-! ## Claim theorems -/

/-- C7: for every plaintext string `m`, every 32-byte key `k` and every
`bridge_id`, `decrypt (encrypt m k bridge_id) k bridge_id = m`, where
both operations use as AES-256-GCM nonce the first 12 bytes of SHA-256 of
the UTF-8 encoding of `bridge_id`; this holds for every 128-bit block
cipher instance, AES-256 in particular. -/
theorem encrypt_decrypt_roundtrip (e : BlockCipher) (m : String) (k : List Nat)
    (bridgeId : String) (hk : k.length = 32) :
    decrypt e (encrypt e m k bridgeId) k bridgeId = some m ∧
    sha256Truncate bridgeId = (sha256 (strToBytes bridgeId)).take 12 ∧
    (sha256Truncate bridgeId).length = 12 := by
  refine ⟨?_, rfl, ?_⟩
  · simp [decrypt, encrypt, gcmDecrypt_gcmEncrypt, bytesToStr_strToBytes]
  · have h32 := sha256_length (strToBytes bridgeId)
    simp [sha256Truncate, List.length_take, h32]

/-- Witness for C7 at a concrete block cipher, message, key and bridge
id. -/
theorem encrypt_decrypt_roundtrip_witness :
    (List.replicate 32 0).length = 32 ∧
    decrypt (fun _ b => b) (encrypt (fun _ b => b) "hello" (List.replicate 32 0) "bridge-1")
      (List.replicate 32 0) "bridge-1" = some "hello" :=
  ⟨by decide,
   (encrypt_decrypt_roundtrip (fun _ b => b) "hello" (List.replicate 32 0) "bridge-1"
     (by decide)).1⟩

/-- C8: with reconnect attempt counter `k = reconnectAttempts + 1`, the
first attempt is scheduled immediately, attempt `k ≥ 2` after exactly
`1000 * 2^(k-2)` ms; once the counter would exceed
`maxReconnectAttempts` (default 10) nothing further is scheduled and the
reconnection state is reset. -/
theorem reconnect_backoff_schedule (st : ReconnSt) :
    (st.reconnectAttempts + 1 ≤ st.maxReconnectAttempts →
      handleReconnect st =
        ({st with reconnectAttempts := st.reconnectAttempts + 1, isReconnecting := true},
         .scheduleIn
           (if st.reconnectAttempts = 0 then 0 else 1000 * 2 ^ (st.reconnectAttempts - 1)))) ∧
    (st.maxReconnectAttempts ≤ st.reconnectAttempts →
      handleReconnect st = ({st with reconnectAttempts := 0, isReconnecting := false}, .giveUp)) ∧
    DEFAULT_MAX_RECONNECT_ATTEMPTS = 10 := by
  refine ⟨?_, ?_, rfl⟩
  · intro h
    simp only [handleReconnect]
    rw [if_neg (by omega)]
    have hd : (if 1 < st.reconnectAttempts + 1 then 1000 * 2 ^ (st.reconnectAttempts + 1 - 2)
        else 0) =
        (if st.reconnectAttempts = 0 then 0 else 1000 * 2 ^ (st.reconnectAttempts - 1)) := by
      by_cases h0 : st.reconnectAttempts = 0
      · simp [h0]
      · rw [if_pos (by omega), if_neg h0]
        have he : st.reconnectAttempts + 1 - 2 = st.reconnectAttempts - 1 := by omega
        rw [he]
    rw [hd]
  · intro h
    simp only [handleReconnect]
    rw [if_pos (by omega)]

/-- Witness for C8: attempts 1, 2 and 4 and exhaustion at the default
limit. -/
theorem reconnect_backoff_schedule_witness :
    handleReconnect ⟨0, false, 10⟩ = (⟨1, true, 10⟩, .scheduleIn 0) ∧
    handleReconnect ⟨1, true, 10⟩ = (⟨2, true, 10⟩, .scheduleIn 1000) ∧
    handleReconnect ⟨3, true, 10⟩ = (⟨4, true, 10⟩, .scheduleIn 4000) ∧
    handleReconnect ⟨10, true, 10⟩ = (⟨0, false, 10⟩, .giveUp) := by
  refine ⟨?_, ?_, ?_, ?_⟩
  · have h := (reconnect_backoff_schedule ⟨0, false, 10⟩).1 (by decide)
    simpa using h
  · have h := (reconnect_backoff_schedule ⟨1, true, 10⟩).1 (by decide)
    simpa using h
  · have h := (reconnect_backoff_schedule ⟨3, true, 10⟩).1 (by decide)
    simpa using h
  · have h := (reconnect_backoff_schedule ⟨10, true, 10⟩).2.1 (by decide)
    simpa using h

/-- C10: an exception thrown by a listener during `emit` is caught inside
`emit`: the session context comes back unchanged, every registered
listener is still invoked (one outcome slot per listener, each depending
only on that listener), and nothing propagates to the emitter. -/
theorem emit_catches_listener_errors {α β : Type} (ctx : α) (listeners : List (Listener β))
    (arg : β) (i : Nat) (hi : i < listeners.length) (e : String)
    (hthrows : listeners[i] arg = .error e) :
    (emitDispatch ctx listeners arg).1 = ctx ∧
    (emitDispatch ctx listeners arg).2.length = listeners.length ∧
    ∀ j (hj : j < listeners.length),
      (emitDispatch ctx listeners arg).2[j]? =
        some (match listeners[j] arg with
          | .ok _ => none
          | .error e' => some e') := by
  refine ⟨rfl, by simp [emitDispatch], ?_⟩
  intro j hj
  simp [emitDispatch, List.getElem?_map, List.getElem?_eq_getElem hj]

/-- Witness for C10: two listeners, the first of which throws; both run,
the context is unchanged. -/
theorem emit_catches_listener_errors_witness :
    (emitDispatch 7 [fun _ => Except.error "boom", fun _ => Except.ok ()] 0).1 = 7 ∧
    (emitDispatch 7 [fun _ => Except.error "boom", fun _ => Except.ok ()] 0).2.length = 2 := by
  have h := emit_catches_listener_errors 7
    [fun _ => Except.error "boom", fun _ => Except.ok ()] 0 0 (by decide) "boom" rfl
  exact ⟨h.1, by simpa using h.2.1⟩

/-! ### Dispatch preserves the duplicate-suppression bookkeeping -/

theorem handleSinglePart_preserves (C : Codecs Json) (st : SessionSt) (inner : Inner Json) :
    (handleSinglePart C st inner).1.seenMessageIds = st.seenMessageIds ∧
    (handleSinglePart C st inner).1.validMessagesReceived = st.validMessagesReceived ∧
    (handleSinglePart C st inner).1.lastMessageTimestamp = st.lastMessageTimestamp := by
  unfold handleSinglePart
  repeat' split
  all_goals simp

theorem handleChunkPart_preserves (C : Codecs Json) (st : SessionSt) (inner : Inner Json)
    (c : ChunkInfo) :
    (handleChunkPart C st inner c).1.seenMessageIds = st.seenMessageIds ∧
    (handleChunkPart C st inner c).1.validMessagesReceived = st.validMessagesReceived ∧
    (handleChunkPart C st inner c).1.lastMessageTimestamp = st.lastMessageTimestamp := by
  unfold handleChunkPart
  dsimp only
  repeat' split
  all_goals simp

theorem handleEncryptedMessage_preserves (C : Codecs Json) (st : SessionSt) (p : List Nat) :
    (handleEncryptedMessage C st p).1.seenMessageIds = st.seenMessageIds ∧
    (handleEncryptedMessage C st p).1.validMessagesReceived = st.validMessagesReceived ∧
    (handleEncryptedMessage C st p).1.lastMessageTimestamp = st.lastMessageTimestamp := by
  unfold handleEncryptedMessage
  repeat' split
  all_goals first
    | simp
    | exact handleSinglePart_preserves _ _ _
    | exact handleChunkPart_preserves _ _ _ _

theorem handleHandshake_preserves (C : Codecs Json) (st : SessionSt) (params : FrameParams) :
    (handleHandshake C st params).st.seenMessageIds = st.seenMessageIds ∧
    (handleHandshake C st params).st.validMessagesReceived = st.validMessagesReceived ∧
    (handleHandshake C st params).st.lastMessageTimestamp = st.lastMessageTimestamp := by
  refine ⟨?_, ?_, ?_⟩ <;>
    (cases params with
     | handshake pk gr =>
        unfold handleHandshake
        dsimp only
        split
        · simp
        · split
          · simp
          · split
            · simp
            · split
              · simp
              · split
                · simp
                · simp
     | encPayload p => simp [handleHandshake]
     | otherParams => simp [handleHandshake])

/-- Projection forms of the preservation lemmas, for rewriting. -/
theorem hem_seen (C : Codecs Json) (st : SessionSt) (p : List Nat) :
    (handleEncryptedMessage C st p).1.seenMessageIds = st.seenMessageIds :=
  (handleEncryptedMessage_preserves C st p).1

theorem hem_valid (C : Codecs Json) (st : SessionSt) (p : List Nat) :
    (handleEncryptedMessage C st p).1.validMessagesReceived = st.validMessagesReceived :=
  (handleEncryptedMessage_preserves C st p).2.1

theorem hem_ts (C : Codecs Json) (st : SessionSt) (p : List Nat) :
    (handleEncryptedMessage C st p).1.lastMessageTimestamp = st.lastMessageTimestamp :=
  (handleEncryptedMessage_preserves C st p).2.2

theorem hh_seen (C : Codecs Json) (st : SessionSt) (params : FrameParams) :
    (handleHandshake C st params).st.seenMessageIds = st.seenMessageIds :=
  (handleHandshake_preserves C st params).1

theorem hh_valid (C : Codecs Json) (st : SessionSt) (params : FrameParams) :
    (handleHandshake C st params).st.validMessagesReceived = st.validMessagesReceived :=
  (handleHandshake_preserves C st params).2.1

theorem hh_ts (C : Codecs Json) (st : SessionSt) (params : FrameParams) :
    (handleHandshake C st params).st.lastMessageTimestamp = st.lastMessageTimestamp :=
  (handleHandshake_preserves C st params).2.2

/-- The state reached by `handleWebSocketMessage` on an accepted frame
keeps the updated bookkeeping fields untouched through dispatch. -/
theorem handleWebSocketMessage_accepted (C : Codecs Json) (st : SessionSt) (now : Nat)
    (data : Frame) (hping : data.method ≠ "ping") (hpong : data.method ≠ "pong")
    (hfid : data.fid ≠ "") (hfresh : st.seenMessageIds.contains data.fid = false) :
    (handleWebSocketMessage C st now data).st.seenMessageIds = data.fid :: st.seenMessageIds ∧
    (handleWebSocketMessage C st now data).st.validMessagesReceived =
      st.validMessagesReceived + 1 ∧
    (handleWebSocketMessage C st now data).st.lastMessageTimestamp = now := by
  have hnc : ¬ (st.seenMessageIds.contains data.fid = true) := by
    rw [hfresh]
    simp
  refine ⟨?_, ?_, ?_⟩ <;>
    (unfold handleWebSocketMessage
     rw [if_neg hping, if_neg hpong, if_neg hfid, if_neg hnc]
     dsimp only
     repeat' split
     all_goals simp [acceptFrame, hem_seen, hh_seen, hem_valid, hh_valid, hem_ts, hh_ts])

/-- C2: an inbound envelope reaches method dispatch only with a non-empty
id absent from `seen_message_ids`, and acceptance inserts the id (and
bumps `valid_messages_received`); a frame whose id is already in
`seen_message_ids` is dropped with no event (in particular no
`MessageReceived`) and no state change. -/
theorem accepted_ids_fresh_and_replay_dropped (C : Codecs Json) (st : SessionSt) (now : Nat)
    (data : Frame) (hping : data.method ≠ "ping") (hpong : data.method ≠ "pong") :
    (st.seenMessageIds.contains data.fid = true →
      handleWebSocketMessage C st now data = ⟨st, [], []⟩) ∧
    (data.fid ≠ "" → st.seenMessageIds.contains data.fid = false →
      (handleWebSocketMessage C st now data).st.seenMessageIds =
        data.fid :: st.seenMessageIds ∧
      (handleWebSocketMessage C st now data).st.validMessagesReceived =
        st.validMessagesReceived + 1) := by
  constructor
  · intro hdup
    unfold handleWebSocketMessage
    rw [if_neg hping, if_neg hpong]
    by_cases hfid : data.fid = ""
    · rw [if_pos hfid]
    · rw [if_neg hfid, if_pos hdup]
  · intro hfid hfresh
    have h := handleWebSocketMessage_accepted C st now data hping hpong hfid hfresh
    exact ⟨h.1, h.2.1⟩

/-- Witness for C2: a replayed id is dropped; a fresh id is recorded. -/
theorem accepted_ids_fresh_and_replay_dropped_witness :
    (handleWebSocketMessage cCodecs stWitC2 9 ⟨"encryptedMessage", "aa", none, .otherParams⟩ =
      ⟨stWitC2, [], []⟩) ∧
    (handleWebSocketMessage cCodecs stWitC2 9
      ⟨"encryptedMessage", "bb", none, .otherParams⟩).st.seenMessageIds = ["bb", "aa"] := by
  constructor
  · exact (accepted_ids_fresh_and_replay_dropped cCodecs stWitC2 9
      ⟨"encryptedMessage", "aa", none, .otherParams⟩ (by decide) (by decide)).1 (by decide)
  · exact ((accepted_ids_fresh_and_replay_dropped cCodecs stWitC2 9
      ⟨"encryptedMessage", "bb", none, .otherParams⟩ (by decide) (by decide)).2
      (by decide) (by decide)).1

/-- C9: for an accepted frame the id, the counter and the timestamp are
recorded before (and independently of) method-specific handling — even
when handling fails and only emits an `Error` — and a verbatim
retransmission of the same frame afterwards is dropped as a duplicate,
returning the state unchanged with no events. -/
theorem accepted_id_recorded_before_dispatch (C : Codecs Json) (st : SessionSt)
    (now now' : Nat) (data : Frame) (hping : data.method ≠ "ping")
    (hpong : data.method ≠ "pong") (hfid : data.fid ≠ "")
    (hfresh : st.seenMessageIds.contains data.fid = false) :
    (handleWebSocketMessage C st now data).st.seenMessageIds =
      data.fid :: st.seenMessageIds ∧
    (handleWebSocketMessage C st now data).st.validMessagesReceived =
      st.validMessagesReceived + 1 ∧
    (handleWebSocketMessage C st now data).st.lastMessageTimestamp = now ∧
    handleWebSocketMessage C (handleWebSocketMessage C st now data).st now' data =
      ⟨(handleWebSocketMessage C st now data).st, [], []⟩ := by
  have h := handleWebSocketMessage_accepted C st now data hping hpong hfid hfresh
  refine ⟨h.1, h.2.1, h.2.2, ?_⟩
  have hdup : (handleWebSocketMessage C st now data).st.seenMessageIds.contains data.fid
      = true := by
    rw [h.1]
    simp
  exact (accepted_ids_fresh_and_replay_dropped C _ now' data hping hpong).1 hdup

/-- Witness for C9: an `encryptedMessage` frame whose handling fails (no
shared secret, so decryption throws and only `Error` is emitted) still
gets its id recorded, and replaying it verbatim is a no-op. -/
theorem accepted_id_recorded_before_dispatch_witness :
    ((handleWebSocketMessage cCodecs stWitC9 4 frWitC9).events =
      [.errorEv (decryptErrMsg "Shared secret not available")]) ∧
    ((handleWebSocketMessage cCodecs stWitC9 4 frWitC9).st.seenMessageIds = ["cc"]) ∧
    (handleWebSocketMessage cCodecs (handleWebSocketMessage cCodecs stWitC9 4 frWitC9).st 8
      frWitC9 = ⟨(handleWebSocketMessage cCodecs stWitC9 4 frWitC9).st, [], []⟩) := by
  have h := accepted_id_recorded_before_dispatch cCodecs stWitC9 4 8 frWitC9
    (by decide) (by decide) (by decide) (by decide)
  exact ⟨by decide, h.1, h.2.2.2⟩

/-- Counterexample for C6: on a chunk-length mismatch an `Error` is
emitted, but — contrary to the claim — the buffer for that chunk id is
not removed: it is still registered, with its original slots and expected
count. -/
theorem chunk_mismatch_keeps_buffer_counterexample :
    (handleEncryptedMessage cCodecs stWitC6 payloadWitC6).2 =
      [.errorEv (chunkMismatchMsg "cid1")] ∧
    alookup "cid1" (handleEncryptedMessage cCodecs stWitC6 payloadWitC6).1.incomplete =
      some ⟨[none, none], 2⟩ := by
  decide

/-- C6 (amended): when a chunk arrives whose `chunk.id` matches an
existing `ChunkBuffer` but whose `chunk.length` differs from the buffer's
expected count, an `Error` event is emitted and the offending chunk is
discarded, while the session state — the buffer included — is left
exactly unchanged, so chunks bearing the original length can still
complete the group. -/
theorem chunk_mismatch_emits_error_keeps_state (C : Codecs Json) (st : SessionSt)
    (key : List Nat) (inner : Inner Json) (c : ChunkInfo) (buf : ChunkBuffer)
    (hb64 : ∀ x, C.b64dec (C.b64enc x) = x)
    (hinner : ∀ x, C.innerDec (C.innerEnc x) = some x)
    (hsec : st.sharedSecret = some key)
    (hchunk : inner.chunk = some c)
    (hone : c.length ≠ 1)
    (hbuf : alookup c.cid st.incomplete = some buf)
    (hmis : buf.expectedChunks ≠ c.length) :
    handleEncryptedMessage C st
      (C.b64enc (gcmEncrypt C.E key (sha256Truncate st.bridgeId) (C.innerEnc inner))) =
      (st, [.errorEv (chunkMismatchMsg c.cid)]) := by
  unfold handleEncryptedMessage
  rw [hsec]
  dsimp only
  rw [hb64, gcmDecrypt_gcmEncrypt]
  dsimp only
  rw [hinner]
  dsimp only
  rw [hchunk]
  dsimp only
  rw [if_neg hone]
  unfold handleChunkPart
  simp only [hbuf, Option.isNone_some, Bool.false_eq_true, if_false]
  rw [if_pos hmis]

/-- Witness for the amended C6. -/
theorem chunk_mismatch_emits_error_keeps_state_witness :
    handleEncryptedMessage cCodecs stWitC6 payloadWitC6 =
      (stWitC6, [.errorEv (chunkMismatchMsg "cid1")]) :=
  chunk_mismatch_emits_error_keeps_state cCodecs stWitC6 keyWitC6
    ⟨"m", .str [5], some ⟨"cid1", 0, 3⟩⟩ ⟨"cid1", 0, 3⟩ ⟨[none, none], 2⟩
    (fun _ => rfl) cInnerDec_cInnerEnc rfl rfl (by decide) rfl (by decide)

/-- Counterexample for C5: the empty object `{}` — the default `params`
of `sendSecureMessage`, encoded `"{}" = [123, 125]` under the concrete
codec — is truthy in JavaScript, so `getEncryptedJsonPayload` sends it
down the chunk pipeline: the single emitted envelope's inner message
carries `chunk: {id, index: 0, length: 1}` and a blob-string `params`,
not `{method, params: {}}` without a chunk field. -/
theorem empty_object_params_has_chunk_field_counterexample :
    (getEncryptedJsonPayload cCodecs "m" (some [123, 125]) keyWitC5 "b" "cid").length = 1 ∧
    ((gcmDecrypt cCodecs.E keyWitC5 (sha256Truncate "b")
        (cCodecs.b64dec
          ((getEncryptedJsonPayload cCodecs "m" (some [123, 125]) keyWitC5 "b" "cid").getD 0
            []))).bind cCodecs.innerDec) =
      some ⟨"m", .str [123, 125], some ⟨"cid", 0, 1⟩⟩ := by
  decide

/-- C5 (amended): for `send_secure(method, params)` where `params` is
absent or JavaScript-falsy (`null`/`undefined` — not the empty object
`{}`, which is truthy and goes through the chunk pipeline), exactly one
envelope is emitted and its inner (decrypted) message is
`{method, params: {}}` with no chunk field present. -/
theorem falsy_params_single_envelope (C : Codecs Json) (method : String) (key : List Nat)
    (bid cid : String)
    (hb64 : ∀ x, C.b64dec (C.b64enc x) = x)
    (hinner : ∀ x, C.innerDec (C.innerEnc x) = some x) :
    ∃ pay, getEncryptedJsonPayload C method none key bid cid = [pay] ∧
      (gcmDecrypt C.E key (sha256Truncate bid) (C.b64dec pay)).bind C.innerDec =
        some ⟨method, .emptyObj, none⟩ := by
  refine ⟨_, rfl, ?_⟩
  rw [hb64, gcmDecrypt_gcmEncrypt]
  simp [hinner]

/-- Witness for the amended C5. -/
theorem falsy_params_single_envelope_witness :
    ∃ pay, getEncryptedJsonPayload cCodecs "m" none keyWitC5 "b" "cid" = [pay] ∧
      (gcmDecrypt cCodecs.E keyWitC5 (sha256Truncate "b") (cCodecs.b64dec pay)).bind
        cCodecs.innerDec = some ⟨"m", .emptyObj, none⟩ :=
  falsy_params_single_envelope cCodecs "m" keyWitC5 "b" "cid" (fun _ => rfl)
    cInnerDec_cInnerEnc

/-- C3 evaluated at the failing input: a post-establishment handshake
whose `pubkey` hex denotes exactly the stored `remote_public_key` bytes
is nevertheless rejected — the error reply goes out on the wire, `Error`
is emitted, the stored key is preserved — because parsing the key builds
a fresh `Uint8Array`, and `!==` compares references, never bytes.  The
claim (and the spec) say an equal key must be accepted and reprocessed;
the source's own unreachable `"sending handshake message again"` branch
shows the same intent. -/
theorem post_establishment_handshake_equal_key_rejected :
    hexDecode (bytesToHex keyBytesC3) = keyBytesC3 ∧
    handleHandshake cCodecs stWitC3 (.handshake (bytesToHex keyBytesC3) "00") =
      ⟨{stWitC3 with nextRef := 2}, [.errorEv handshakeRejectMsg],
        [.errorReply handshakeRejectMsg]⟩ := by
  decide

/-! ### C4 — joiner origin validation -/

/-- `takeWhile` runs past a prefix whose elements all satisfy the
predicate. -/
theorem takeWhile_all_append {α : Type} (p : α → Bool) (xs ys : List α)
    (h : ∀ a ∈ xs, p a = true) :
    (xs ++ ys).takeWhile p = xs ++ ys.takeWhile p := by
  induction xs with
  | nil => simp
  | cons x xs ih =>
      simp only [List.cons_append, List.takeWhile_cons]
      rw [h x (by simp), ih (fun a ha => h a (by simp [ha]))]
      simp

/-- C4: for an inbound `encryptedMessage` at the joiner with a set
`bridge_origin`, the frame's origin is reduced by `parseOriginHeader` to
`scheme://host` with the port stripped (third conjunct); on a mismatch
the frame is dropped before decryption — the state is exactly the
post-acceptance state, the only event is an `Error` naming the received
and the expected origin, nothing goes on the wire (first conjunct); on a
match the frame proceeds to `handleEncryptedMessage` (second
conjunct). -/
theorem joiner_origin_validation (C : Codecs Json) (st : SessionSt) (now : Nat) (data : Frame)
    (bo : List Char)
    (hrole : st.role = Role.joiner) (hbo : st.bridgeOrigin = some bo) (hbone : bo ≠ [])
    (hmeth : data.method = "encryptedMessage") (hfid : data.fid ≠ "")
    (hfresh : st.seenMessageIds.contains data.fid = false) :
    (∀ o, data.origin = some o → o ≠ [] → parseOriginHeader o ≠ bo →
      handleWebSocketMessage C st now data =
        ⟨acceptFrame st data.fid now,
         [.errorEv (originMismatchMsg (some (parseOriginHeader o)) bo)], []⟩) ∧
    (∀ o p, data.origin = some o → o ≠ [] → parseOriginHeader o = bo →
      data.params = .encPayload p →
      handleWebSocketMessage C st now data =
        ⟨(handleEncryptedMessage C (acceptFrame st data.fid now) p).1,
         (handleEncryptedMessage C (acceptFrame st data.fid now) p).2, []⟩) ∧
    (∀ scheme host port : List Char,
      scheme ≠ [] → (scheme.headD ' ').isAlpha = true → scheme.all isSchemeChar = true →
      host ≠ [] →
      host.all (fun c => c != ':' && c != '/' && c != '?' && c != '#') = true →
      port.all (fun c => c != '/' && c != '?' && c != '#') = true →
      parseOriginHeader (scheme ++ (':' :: '/' :: '/' :: (host ++ (':' :: port)))) =
        scheme ++ (':' :: '/' :: '/' :: host)) := by
  have hnc : ¬ (st.seenMessageIds.contains data.fid = true) := by
    rw [hfresh]
    simp
  have hnotcrea :
      ¬ ((acceptFrame st data.fid now).role = Role.creator ∧ data.method = "handshake") := by
    rintro ⟨-, h2⟩
    rw [hmeth] at h2
    exact absurd h2 (by decide)
  refine ⟨?_, ?_, ?_⟩
  · intro o ho hoe hne
    unfold handleWebSocketMessage
    rw [if_neg (by rw [hmeth]; decide), if_neg (by rw [hmeth]; decide), if_neg hfid,
      if_neg hnc]
    dsimp only
    rw [if_neg hnotcrea, if_pos hmeth]
    dsimp only
    rw [if_pos (by simp [acceptFrame, hrole, hbo, hbone])]
    rw [ho]
    dsimp only
    rw [if_neg hoe]
    rw [if_pos (by simp [acceptFrame, hbo, hne])]
    simp [acceptFrame, hbo]
  · intro o p ho hoe heq hp
    unfold handleWebSocketMessage
    rw [if_neg (by rw [hmeth]; decide), if_neg (by rw [hmeth]; decide), if_neg hfid,
      if_neg hnc]
    dsimp only
    rw [if_neg hnotcrea, if_pos hmeth]
    dsimp only
    rw [if_pos (by simp [acceptFrame, hrole, hbo, hbone])]
    rw [ho]
    dsimp only
    rw [if_neg hoe]
    rw [if_neg (by simp [acceptFrame, hbo, heq])]
    rw [hp]
    simp
  · intro scheme host port h1 h2 h3 h4 h5 h6
    have hpne : ∀ a ∈ scheme, (a != ':') = true := by
      intro a ha
      have := List.all_eq_true.mp h3 a ha
      by_cases hc : a = ':'
      · subst hc
        exact absurd this (by decide)
      · simpa using hc
    unfold parseOriginHeader urlParse
    dsimp only
    rw [takeWhile_all_append _ _ _ hpne, List.takeWhile_cons_of_neg (by decide)]
    rw [List.append_nil, List.drop_left]
    have hcond : (scheme ≠ [] ∧ (scheme.headD ' ').isAlpha = true ∧
        scheme.all isSchemeChar = true) := ⟨h1, h2, h3⟩
    simp only [if_pos hcond]
    have hhostp : ∀ a ∈ host, (a != '/' && a != '?' && a != '#') = true := by
      intro a ha
      have := List.all_eq_true.mp h5 a ha
      simp only [Bool.and_eq_true] at this ⊢
      exact ⟨⟨this.1.1.2, this.1.2⟩, this.2⟩
    rw [takeWhile_all_append _ _ _ hhostp, List.takeWhile_cons_of_pos (by decide)]
    have hportp : (port.takeWhile (fun c => c != '/' && c != '?' && c != '#')) = port :=
      List.takeWhile_eq_self_iff.mpr (List.all_eq_true.mp h6)
    rw [hportp]
    rw [if_neg (by simp)]
    dsimp only
    have hhostc : ∀ a ∈ host, (a != ':') = true := by
      intro a ha
      have := List.all_eq_true.mp h5 a ha
      simp only [Bool.and_eq_true] at this
      exact this.1.1.1
    rw [takeWhile_all_append _ _ _ hhostc, List.takeWhile_cons_of_neg (by decide)]
    simp

/-- Witness for C4: a frame from `https://evil.example:8080/x` is dropped
with an `Error` naming both origins; the port-stripping shape is checked
on `https://site.example:8080`. -/
theorem joiner_origin_validation_witness :
    (handleWebSocketMessage cCodecs stWitC4 3
      ⟨"encryptedMessage", "dd", some "https://evil.example:8080/x".data, .encPayload []⟩ =
      ⟨acceptFrame stWitC4 "dd" 3,
       [.errorEv (originMismatchMsg
         (some (parseOriginHeader "https://evil.example:8080/x".data))
         "https://good.example".data)], []⟩) ∧
    parseOriginHeader
        ("https".data ++ (':' :: '/' :: '/' :: ("site.example".data ++ (':' :: "8080".data)))) =
      "https".data ++ (':' :: '/' :: '/' :: "site.example".data) := by
  have h := joiner_origin_validation cCodecs stWitC4 3
    ⟨"encryptedMessage", "dd", some "https://evil.example:8080/x".data, .encPayload []⟩
    "https://good.example".data rfl rfl (by decide) rfl (by decide) (by decide)
  constructor
  · exact h.1 _ rfl (by decide) (by decide)
  · exact h.2.2 "https".data "site.example".data "8080".data (by decide) (by decide)
      (by decide) (by decide) (by decide) (by decide)

theorem all_map2 {α β : Type} (f : α → β) (l : List α) (p : β → Bool) :
    (l.map f).all p = l.all (p ∘ f) := by
  induction l <;> simp_all

theorem alookup_aset_self (k : String) (v : ChunkBuffer) (m : List (String × ChunkBuffer)) :
    alookup k (aset k v m) = some v := by
  induction m with
  | nil => simp [aset, alookup]
  | cons kv rest ih =>
      obtain ⟨k', v'⟩ := kv
      by_cases hk : k' = k
      · simp [aset, alookup, hk]
      · simp [aset, alookup, hk, ih]

theorem aset_aset_self (k : String) (v v' : ChunkBuffer) (m : List (String × ChunkBuffer)) :
    aset k v' (aset k v m) = aset k v' m := by
  induction m with
  | nil => simp [aset]
  | cons kv rest ih =>
      obtain ⟨k'', v''⟩ := kv
      by_cases hk : k'' = k
      · simp [aset, hk]
      · simp [aset, hk, ih]

theorem join_slices_aux {α : Type} (n : Nat) (hn : 0 < n) :
    ∀ (fuel : Nat) (b : List α), b.length ≤ fuel →
      ((List.range (ceilDiv b.length n)).map (fun i => (b.drop (i * n)).take n)).flatten = b := by
  intro fuel
  induction fuel with
  | zero =>
      intro b hb
      have hb0 : b = [] := List.length_eq_zero.mp (Nat.le_zero.mp hb)
      subst hb0
      simp [ceilDiv, Nat.div_eq_of_lt (by omega : 0 + n - 1 < n)]
  | succ k ih =>
      intro b hb
      by_cases hb0 : b.length = 0
      · have hbe : b = [] := List.length_eq_zero.mp hb0
        subst hbe
        simp [ceilDiv, Nat.div_eq_of_lt (by omega : 0 + n - 1 < n)]
      · have hlen1 : 1 ≤ b.length := Nat.pos_of_ne_zero hb0
        have hcd : ceilDiv b.length n = ceilDiv (b.drop n).length n + 1 := by
          rw [List.length_drop]
          rcases Nat.lt_or_ge n b.length with hlt | hge
          · have e1 : b.length + n - 1 = (b.length - 1) + n := by omega
            have e2 : b.length - n + n - 1 = (b.length - n - 1) + n := by omega
            have e3 : b.length - n - 1 + n = b.length - 1 := by omega
            simp only [ceilDiv, e1, e2, Nat.add_div_right _ hn]
            rw [← e3, Nat.add_div_right _ hn]
          · have e1 : b.length - n = 0 := by omega
            have e2 : b.length + n - 1 = (b.length - 1) + n := by omega
            rw [e1]
            simp only [ceilDiv, e2, Nat.add_div_right _ hn]
            rw [Nat.div_eq_of_lt (by omega), Nat.div_eq_of_lt (by omega)]
        rw [hcd, List.range_succ_eq_map, List.map_cons, List.flatten_cons, Nat.zero_mul,
          List.drop_zero, List.map_map]
        have htail : ((List.range (ceilDiv (b.drop n).length n)).map
            ((fun i => (b.drop (i * n)).take n) ∘ Nat.succ)) =
            ((List.range (ceilDiv (b.drop n).length n)).map
              (fun i => ((b.drop n).drop (i * n)).take n)) := by
          apply List.map_congr_left
          intro i _
          simp only [Function.comp]
          rw [List.drop_drop]
          congr 2
          simp [Nat.succ_mul, Nat.add_comm]
        rw [htail, ih (b.drop n) (by rw [List.length_drop]; omega)]
        exact List.take_append_drop n b

/-- Concatenating the `CHUNK_SIZE` slices in index order restores the
blob. -/
theorem join_slices (b : List Nat) :
    ((List.range (ceilDiv b.length CHUNK_SIZE)).map (sliceOf b)).flatten = b := by
  have h := join_slices_aux CHUNK_SIZE (by decide) b.length b (le_refl _)
  simpa [sliceOf] using h

theorem partialChunks_length (blob : List Nat) (n : Nat) (s : List Nat) :
    (partialChunks blob n s).length = n := by
  simp [partialChunks]

theorem replicate_none_eq_partialChunks (blob : List Nat) (n : Nat) :
    List.replicate n (none : Option (List Nat)) = partialChunks blob n [] := by
  apply List.ext_getElem
  · simp [partialChunks]
  · intro j h1 h2
    simp [partialChunks, List.getElem_replicate]

theorem partialChunks_set (blob : List Nat) (n : Nat) (s : List Nat) (i : Nat) (hi : i < n) :
    (partialChunks blob n s).set i (some (sliceOf blob i)) = partialChunks blob n (i :: s) := by
  apply List.ext_getElem
  · simp [partialChunks]
  · intro j h1 h2
    rw [List.getElem_set]
    simp only [partialChunks, List.getElem_map, List.getElem_range]
    by_cases hij : i = j
    · subst hij
      simp [List.contains_cons]
    · have hji : (j == i) = false := by
        simp [Ne.symm hij]
      simp only [if_neg hij, List.contains_cons, hji, Bool.false_or]

theorem partialChunks_all_iff (blob : List Nat) (n : Nat) (s : List Nat) :
    ((partialChunks blob n s).all Option.isSome = true) ↔
      ∀ j, j < n → s.contains j = true := by
  rw [partialChunks, all_map2, List.all_eq_true]
  constructor
  · intro h j hj
    have := h j (List.mem_range.mpr hj)
    by_cases hc : s.contains j
    · exact hc
    · rw [List.elem_iff] at hc
      simp [Function.comp, hc] at this
  · intro h j hj
    simp [Function.comp, List.elem_iff.mp (h j (List.mem_range.mp hj))]

theorem partialChunks_getD_flatten (blob : List Nat) (n : Nat) (s : List Nat)
    (h : ∀ j, j < n → s.contains j = true) :
    ((partialChunks blob n s).map (fun o => o.getD [])).flatten =
      ((List.range n).map (sliceOf blob)).flatten := by
  congr 1
  rw [partialChunks, List.map_map]
  apply List.map_congr_left
  intro j hj
  simp [Function.comp, List.elem_iff.mp (h j (List.mem_range.mp hj))]

/-- Decryption and decoding reduce a chunk envelope to its
`handleChunkPart` call. -/
theorem hem_mkChunkEnvelope (C : Codecs Json)
    (hb64 : ∀ x, C.b64dec (C.b64enc x) = x)
    (hinner : ∀ x, C.innerDec (C.innerEnc x) = some x)
    (st : SessionSt) (key : List Nat) (hsec : st.sharedSecret = some key)
    (method cid bid : String) (hbid : st.bridgeId = bid)
    (blob : List Nat) (N i : Nat) (hN : N ≠ 1) :
    handleEncryptedMessage C st (mkChunkEnvelope C method key bid cid blob N i) =
      handleChunkPart C st ⟨method, .str (sliceOf blob i), some ⟨cid, i, N⟩⟩ ⟨cid, i, N⟩ := by
  unfold handleEncryptedMessage mkChunkEnvelope
  rw [hsec]
  dsimp only
  rw [hbid, hb64, gcmDecrypt_gcmEncrypt]
  dsimp only
  rw [hinner]
  dsimp only
  rw [if_neg hN]
  rfl

/-- Storing slice `i` in a partially filled slot array. -/
theorem listSetGrow_partial (blob : List Nat) (n : Nat) (s : List Nat) (i : Nat) (hi : i < n) :
    listSetGrow (partialChunks blob n s) i (sliceOf blob i) = partialChunks blob n (i :: s) := by
  unfold listSetGrow
  rw [if_pos (by simp [partialChunks_length, hi])]
  exact partialChunks_set blob n s i hi

/-- First chunk of a fresh group (no buffer yet): the buffer is created
and the slice stored; with at least two chunks expected nothing completes
yet. -/
theorem chunkStep_first (C : Codecs Json) (st0 : SessionSt) (method cid : String)
    (blob : List Nat) (N i : Nat)
    (hfresh : alookup cid st0.incomplete = none) (hi : i < N) (hN : 2 ≤ N) :
    handleChunkPart C st0 ⟨method, .str (sliceOf blob i), some ⟨cid, i, N⟩⟩ ⟨cid, i, N⟩ =
      (chunkStateAfter st0 cid blob N [i], [.chunkReceived ⟨cid, i, N⟩]) := by
  have hnall : ¬ ((partialChunks blob N [i]).all Option.isSome = true) := by
    rw [partialChunks_all_iff]
    intro h
    rcases Nat.lt_or_ge i 1 with h0 | h0
    · have := h 1 (by omega)
      revert this
      simp [List.contains_cons]
      omega
    · have := h 0 (by omega)
      revert this
      simp [List.contains_cons]
      omega
  unfold handleChunkPart
  simp only [hfresh, Option.isNone_none, eq_self_iff_true, if_true]
  rw [alookup_aset_self]
  dsimp only
  rw [if_neg (by simp)]
  simp only [paramsToBytes, replicate_none_eq_partialChunks blob, listSetGrow_partial _ _ _ _ hi]
  rw [if_neg hnall]
  rw [aset_aset_self]
  rfl

/-- A later chunk that does not yet complete the group. -/
theorem chunkStep_mid (C : Codecs Json) (st0 : SessionSt) (method cid : String)
    (blob : List Nat) (N i : Nat) (s : List Nat) (hi : i < N)
    (hnall : ¬ ∀ j, j < N → (i :: s).contains j = true) :
    handleChunkPart C (chunkStateAfter st0 cid blob N s)
        ⟨method, .str (sliceOf blob i), some ⟨cid, i, N⟩⟩ ⟨cid, i, N⟩ =
      (chunkStateAfter st0 cid blob N (i :: s), [.chunkReceived ⟨cid, i, N⟩]) := by
  unfold handleChunkPart chunkStateAfter
  dsimp only
  rw [alookup_aset_self]
  simp only [Option.isNone_some, Bool.false_eq_true, if_false]
  rw [alookup_aset_self]
  dsimp only
  rw [if_neg (by simp)]
  simp only [paramsToBytes, listSetGrow_partial _ _ _ _ hi]
  rw [if_neg (by rw [partialChunks_all_iff]; exact hnall)]
  rw [aset_aset_self]

/-- The completing chunk: all slots filled, the slices joined in index
order, decoded, the buffer deleted and `MessageReceived` emitted with the
original params. -/
theorem chunkStep_last (C : Codecs Json)
    (hb64 : ∀ x, C.b64dec (C.b64enc x) = x)
    (hinf : ∀ x, C.inflate (C.deflate x) = .ok x)
    (hjson : ∀ x, C.jsonDec (C.jsonEnc x) = some x)
    (st0 : SessionSt) (method cid : String) (p : Json) (i : Nat) (s : List Nat)
    (hi : i < numChunksOf C p)
    (hall : ∀ j, j < numChunksOf C p → (i :: s).contains j = true) :
    ∃ stf, handleChunkPart C (chunkStateAfter st0 cid (chunkBlob C p) (numChunksOf C p) s)
        ⟨method, .str (sliceOf (chunkBlob C p) i), some ⟨cid, i, numChunksOf C p⟩⟩
        ⟨cid, i, numChunksOf C p⟩ =
      (stf, [.chunkReceived ⟨cid, i, numChunksOf C p⟩,
        .messageReceived ⟨method, .obj p, none⟩]) := by
  refine ⟨{st0 with incomplete := aerase cid (aset cid
    ⟨partialChunks (chunkBlob C p) (numChunksOf C p) (i :: s), numChunksOf C p⟩
    st0.incomplete)}, ?_⟩
  unfold handleChunkPart chunkStateAfter
  dsimp only
  rw [alookup_aset_self]
  simp only [Option.isNone_some, Bool.false_eq_true, if_false]
  rw [alookup_aset_self]
  dsimp only
  rw [if_neg (by simp)]
  simp only [paramsToBytes, listSetGrow_partial _ _ _ _ hi]
  rw [if_pos (by rw [partialChunks_all_iff]; exact hall)]
  rw [partialChunks_getD_flatten _ _ _ hall]
  rw [numChunksOf, join_slices]
  rw [chunkBlob, hb64, hinf]
  dsimp only
  rw [hjson]
  dsimp only
  rw [aset_aset_self]

/-- `MessageReceived` payloads of a pure chunk-event list: none. -/
theorem messagesOf_chunkRec (cid : String) (N : Nat) (l : List Nat) :
    messagesOf (l.map (fun i => (BEvent.chunkReceived ⟨cid, i, N⟩ : BEvent Json))) = [] := by
  induction l with
  | nil => rfl
  | cons i l ih => simpa [messagesOf, List.filterMap_cons] using ih

/-- Processing the remaining chunk indices `r` from a state in which the
indices of `s ≠ []` are already buffered: every chunk emits
`ChunkRecieved` and the last also emits the reassembled
`MessageReceived`. -/
theorem chunkRun (C : Codecs Json)
    (hb64 : ∀ x, C.b64dec (C.b64enc x) = x)
    (hinf : ∀ x, C.inflate (C.deflate x) = .ok x)
    (hjson : ∀ x, C.jsonDec (C.jsonEnc x) = some x)
    (hinner : ∀ x, C.innerDec (C.innerEnc x) = some x)
    (st0 : SessionSt) (key : List Nat) (hsec : st0.sharedSecret = some key)
    (method cid : String) (p : Json) :
    ∀ (r s : List Nat), r ≠ [] → r.Nodup →
      (∀ j, j ∈ s ∨ j ∈ r ↔ j < numChunksOf C p) →
      (∀ j, j ∈ s → j ∉ r) → s ≠ [] →
      ∃ stf, processEnvelopes C
        (chunkStateAfter st0 cid (chunkBlob C p) (numChunksOf C p) s)
        (r.map (mkChunkEnvelope C method key st0.bridgeId cid (chunkBlob C p)
          (numChunksOf C p))) =
        (stf, (r.map (fun i => BEvent.chunkReceived ⟨cid, i, numChunksOf C p⟩)) ++
          [BEvent.messageReceived ⟨method, .obj p, none⟩]) := by
  intro r
  induction r with
  | nil => intro s hne; exact absurd rfl hne
  | cons i r ih =>
      intro s _ hnodup hcover hdisj hsne
      have hiN : i < numChunksOf C p := (hcover i).mp (Or.inr (by simp))
      have hN2 : numChunksOf C p ≠ 1 := by
        intro h1
        have h0i : i = 0 := by
          have := (hcover i).mp (Or.inr (by simp))
          omega
        rcases s with _ | ⟨a, s'⟩
        · exact absurd rfl hsne
        · have haN : a < numChunksOf C p := (hcover a).mp (Or.inl (by simp))
          have hia : a ∉ i :: r := hdisj a (by simp)
          have : a = 0 := by omega
          exact hia (by simp [this, h0i])
      simp only [List.map_cons, processEnvelopes]
      rw [hem_mkChunkEnvelope C hb64 hinner
        (chunkStateAfter st0 cid (chunkBlob C p) (numChunksOf C p) s) key
        (by simp [chunkStateAfter, hsec]) method cid st0.bridgeId
        (by simp [chunkStateAfter]) _ _ _ hN2]
      cases r with
      | nil =>
          have hall : ∀ j, j < numChunksOf C p → (i :: s).contains j = true := by
            intro j hj
            rw [List.elem_iff]
            rcases (hcover j).mpr hj with hjs | hji
            · exact List.mem_cons_of_mem _ hjs
            · simp only [List.mem_singleton] at hji
              simp [hji]
          obtain ⟨stf, heq⟩ := chunkStep_last C hb64 hinf hjson st0 method cid p i s hiN hall
          refine ⟨stf, ?_⟩
          rw [heq]
          simp [processEnvelopes]
      | cons j0 r' =>
          have hj0N : j0 < numChunksOf C p := (hcover j0).mp (Or.inr (by simp))
          have hj0i : j0 ≠ i := by
            intro h
            subst h
            simp at hnodup
          have hj0s : j0 ∉ s := by
            intro h
            exact hdisj j0 h (by simp)
          have hnall : ¬ ∀ j, j < numChunksOf C p → (i :: s).contains j = true := by
            intro h
            have := h j0 hj0N
            rw [List.elem_iff] at this
            rcases List.mem_cons.mp this with h1 | h1
            · exact hj0i h1
            · exact hj0s h1
          rw [chunkStep_mid C st0 method cid _ _ i s hiN hnall]
          have hcover' : ∀ j, j ∈ (i :: s) ∨ j ∈ (j0 :: r') ↔ j < numChunksOf C p := by
            intro j
            constructor
            · intro h
              rcases h with h | h
              · rcases List.mem_cons.mp h with h | h
                · exact (hcover j).mp (Or.inr (by simp [h]))
                · exact (hcover j).mp (Or.inl h)
              · exact (hcover j).mp (Or.inr (by simp [List.mem_cons_of_mem, h]))
            · intro hj
              rcases (hcover j).mpr hj with h | h
              · exact Or.inl (List.mem_cons_of_mem _ h)
              · rcases List.mem_cons.mp h with h | h
                · exact Or.inl (by simp [h])
                · exact Or.inr h
          have hdisj' : ∀ j, j ∈ (i :: s) → j ∉ (j0 :: r') := by
            intro j hj
            rcases List.mem_cons.mp hj with h | h
            · subst h
              simp only [List.nodup_cons] at hnodup
              intro hc
              exact hnodup.1 hc
            · intro hc
              exact hdisj j h (List.mem_cons_of_mem _ hc)
          have hnodup' : (j0 :: r').Nodup := by
            rw [List.nodup_cons] at hnodup
            exact hnodup.2
          obtain ⟨stf, heq⟩ := ih (i :: s) (by simp) hnodup' hcover' hdisj' (by simp)
          refine ⟨stf, ?_⟩
          rw [heq]
          simp

/-- Processing a full permutation of chunk indices from a state with no
buffer for the group: the first chunk creates the buffer, the rest follow
`chunkRun`. -/
theorem chunkRunStart (C : Codecs Json)
    (hb64 : ∀ x, C.b64dec (C.b64enc x) = x)
    (hinf : ∀ x, C.inflate (C.deflate x) = .ok x)
    (hjson : ∀ x, C.jsonDec (C.jsonEnc x) = some x)
    (hinner : ∀ x, C.innerDec (C.innerEnc x) = some x)
    (st0 : SessionSt) (key : List Nat) (hsec : st0.sharedSecret = some key)
    (method cid : String) (p : Json)
    (hfresh : alookup cid st0.incomplete = none)
    (hN2 : 2 ≤ numChunksOf C p)
    (l : List Nat) (hl : l.Perm (List.range (numChunksOf C p))) :
    ∃ stf, processEnvelopes C st0
      (l.map (mkChunkEnvelope C method key st0.bridgeId cid (chunkBlob C p)
        (numChunksOf C p))) =
      (stf, (l.map (fun i => BEvent.chunkReceived ⟨cid, i, numChunksOf C p⟩)) ++
        [BEvent.messageReceived ⟨method, .obj p, none⟩]) := by
  have hlen : l.length = numChunksOf C p := by simpa using hl.length_eq
  have hmem : ∀ j, j ∈ l ↔ j < numChunksOf C p := by
    intro j
    rw [hl.mem_iff, List.mem_range]
  have hnd : l.Nodup := hl.nodup_iff.mpr (List.nodup_range _)
  cases l with
  | nil =>
      exfalso
      simp at hlen
      omega
  | cons i r =>
      have hiN : i < numChunksOf C p := (hmem i).mp (by simp)
      have hrne : r ≠ [] := by
        intro h
        subst h
        simp at hlen
        omega
      simp only [List.map_cons, processEnvelopes]
      rw [hem_mkChunkEnvelope C hb64 hinner st0 key hsec method cid st0.bridgeId rfl _ _ _
        (by omega)]
      rw [chunkStep_first C st0 method cid _ _ i hfresh hiN hN2]
      have hcover : ∀ j, j ∈ [i] ∨ j ∈ r ↔ j < numChunksOf C p := by
        intro j
        rw [← hmem j]
        constructor
        · rintro (h | h)
          · simp only [List.mem_singleton] at h
            simp [h]
          · exact List.mem_cons_of_mem _ h
        · intro h
          rcases List.mem_cons.mp h with h | h
          · exact Or.inl (by simp [h])
          · exact Or.inr h
      have hdisj : ∀ j, j ∈ [i] → j ∉ r := by
        intro j hj
        simp only [List.mem_singleton] at hj
        subst hj
        rw [List.nodup_cons] at hnd
        exact hnd.1
      obtain ⟨stf, heq⟩ := chunkRun C hb64 hinf hjson hinner st0 key hsec method cid p r [i]
        hrne (by rw [List.nodup_cons] at hnd; exact hnd.2) hcover hdisj (by simp)
      refine ⟨stf, ?_⟩
      rw [heq]
      simp

/-- The one-chunk case: the envelope takes the single-part path of
`handleEncryptedMessage`, decompresses, and emits the original params. -/
theorem hem_single_chunk (C : Codecs Json)
    (hb64 : ∀ x, C.b64dec (C.b64enc x) = x)
    (hinf : ∀ x, C.inflate (C.deflate x) = .ok x)
    (hjson : ∀ x, C.jsonDec (C.jsonEnc x) = some x)
    (hinner : ∀ x, C.innerDec (C.innerEnc x) = some x)
    (st0 : SessionSt) (key : List Nat) (hsec : st0.sharedSecret = some key)
    (method cid : String) (p : Json)
    (hhello : st0.established = true ∨ method ≠ "hello")
    (hblob : chunkBlob C p ≠ [])
    (hN1 : numChunksOf C p = 1) :
    handleEncryptedMessage C st0
      (mkChunkEnvelope C method key st0.bridgeId cid (chunkBlob C p) (numChunksOf C p) 0) =
      (st0, [.messageReceived ⟨method, .obj p, none⟩]) := by
  have h1 : 1 ≤ (chunkBlob C p).length := List.length_pos.mpr hblob
  have hlen : (chunkBlob C p).length ≤ CHUNK_SIZE := by
    have h2 := hN1
    unfold numChunksOf ceilDiv CHUNK_SIZE at h2
    unfold CHUNK_SIZE
    omega
  unfold handleEncryptedMessage mkChunkEnvelope
  rw [hsec]
  dsimp only
  rw [hb64, gcmDecrypt_gcmEncrypt]
  dsimp only
  rw [hinner]
  dsimp only
  rw [hN1, if_pos rfl]
  unfold handleSinglePart
  rw [if_neg (by rcases hhello with h | h <;> simp [h])]
  dsimp only
  rw [Nat.zero_mul, List.drop_zero, List.take_of_length_le hlen]
  rw [if_pos (by omega)]
  rw [chunkBlob, hb64, hinf]
  dsimp only
  rw [hjson]

/-- C1: sending any truthy `params` through the outbound chunking
pipeline (deflate `JSON(params)`, base64-encode, split into `CHUNK_SIZE`
slices, encrypt each with the shared secret and the bridge-id nonce) and
processing the resulting `encryptedMessage` envelopes at the peer in any
arrival order emits exactly one `MessageReceived`, whose params is the
original `params` — that is,
`JSON.parse(inflate(base64decode(concat(slots by index))))`. -/
theorem chunk_pipeline_roundtrip (C : Codecs Json)
    (hb64 : ∀ x, C.b64dec (C.b64enc x) = x)
    (hinf : ∀ x, C.inflate (C.deflate x) = .ok x)
    (hjson : ∀ x, C.jsonDec (C.jsonEnc x) = some x)
    (hinner : ∀ x, C.innerDec (C.innerEnc x) = some x)
    (st0 : SessionSt) (key : List Nat) (hsec : st0.sharedSecret = some key)
    (method cid : String) (p : Json)
    (hfresh : alookup cid st0.incomplete = none)
    (hhello : st0.established = true ∨ method ≠ "hello")
    (hblob : chunkBlob C p ≠ [])
    (l : List Nat) (hl : l.Perm (List.range (numChunksOf C p))) :
    getEncryptedJsonPayload C method (some p) key st0.bridgeId cid =
      (List.range (numChunksOf C p)).map
        (mkChunkEnvelope C method key st0.bridgeId cid (chunkBlob C p) (numChunksOf C p)) ∧
    messagesOf (processEnvelopes C st0
      (l.map (mkChunkEnvelope C method key st0.bridgeId cid (chunkBlob C p)
        (numChunksOf C p)))).2 = [⟨method, .obj p, none⟩] := by
  have h1 : 1 ≤ numChunksOf C p := by
    have h2 := List.length_pos.mpr hblob
    unfold numChunksOf ceilDiv CHUNK_SIZE
    omega
  constructor
  · rfl
  · rcases Nat.lt_or_ge (numChunksOf C p) 2 with hN | hN
    · have hN1 : numChunksOf C p = 1 := by omega
      have hl1 : l = [0] := by
        rw [hN1] at hl
        have hr1 : List.range 1 = [0] := rfl
        rw [hr1] at hl
        exact List.perm_singleton.mp hl
      subst hl1
      simp only [List.map_cons, List.map_nil, processEnvelopes]
      rw [hem_single_chunk C hb64 hinf hjson hinner st0 key hsec method cid p hhello hblob
        hN1]
      simp [messagesOf, processEnvelopes]
    · obtain ⟨stf, heq⟩ := chunkRunStart C hb64 hinf hjson hinner st0 key hsec method cid p
        hfresh hN l hl
      rw [heq]
      have hmc := @messagesOf_chunkRec Json cid (numChunksOf C p) l
      simp only [messagesOf] at hmc ⊢
      rw [List.filterMap_append, hmc]
      rfl

/-- Witness for C1 at the concrete codec, params `[49]` and the identity
arrival order. -/
theorem chunk_pipeline_roundtrip_witness :
    getEncryptedJsonPayload cCodecs "m" (some [49]) (List.replicate 32 9) stWitC1.bridgeId
        "cid" =
      (List.range (numChunksOf cCodecs [49])).map
        (mkChunkEnvelope cCodecs "m" (List.replicate 32 9) stWitC1.bridgeId "cid"
          (chunkBlob cCodecs [49]) (numChunksOf cCodecs [49])) ∧
    messagesOf (processEnvelopes cCodecs stWitC1
      ([0].map (mkChunkEnvelope cCodecs "m" (List.replicate 32 9) stWitC1.bridgeId "cid"
        (chunkBlob cCodecs [49]) (numChunksOf cCodecs [49])))).2 =
      [⟨"m", .obj [49], none⟩] :=
  chunk_pipeline_roundtrip cCodecs (fun _ => rfl) (fun _ => rfl) (fun _ => rfl)
    cInnerDec_cInnerEnc stWitC1 (List.replicate 32 9) rfl "m" "cid" [49] rfl (Or.inl rfl)
    (by decide) [0] (by decide)

end Obsidion
